import Mathlib

/-!
# Verification of the PAI1-ST7 secure-messaging banking demonstrator

Shallow embedding of the repository's core (message codec, MAC + nonce
validation pipeline, persistent store, authentication with rate limiting,
transaction audit log) together with proofs and refutations of the
specification claims.

Conventions of the embedding:
* A Python `bytes` value is a `List Nat` whose elements are `< 256`.
* `datetime` instants and `timedelta` spans are natural numbers of seconds;
  `datetime.now()` becomes an explicit `ahora : Nat` parameter.
* Randomness (`secrets.token_bytes`) becomes an explicit parameter: the
  drawn nonce is an input of the functions that draw one.
* Fallible code returns `Option`/`Except`; an uncaught Python exception is
  `none` at the level where the source catches it.
* Stateful code (the SQLite tables, the in-memory rate-limit map) is
  explicit state passing.
-/

/-! ## Bytes -/

/-- All elements of a byte string are bytes (`< 256`). -/
def bytesOk (l : List Nat) : Prop := ∀ x ∈ l, x < 256

instance : DecidablePred bytesOk := fun l =>
  inferInstanceAs (Decidable (∀ x ∈ l, x < 256))

/-! ## SHA-256 (FIPS 180-4), as used by Python's `hashlib.sha256`

The repository's MAC primitive is `hmac.new(clave, datos, hashlib.sha256)`
(`src/common/crypto__utils.py`).  `hashlib`/`hmac` are library collaborators
of the source; they are embedded here in full so that every MAC computation
of the model is executable.  32-bit words are `Nat` with explicit
`% 4294967296` where overflow matters. -/

def add32 (a b : Nat) : Nat := (a + b) % 4294967296

def rotr32 (x n : Nat) : Nat := ((x >>> n) ||| (x <<< (32 - n))) % 4294967296

def bigSigma0 (x : Nat) : Nat := (rotr32 x 2) ^^^ (rotr32 x 13) ^^^ (rotr32 x 22)

def bigSigma1 (x : Nat) : Nat := (rotr32 x 6) ^^^ (rotr32 x 11) ^^^ (rotr32 x 25)

def smallSigma0 (x : Nat) : Nat := (rotr32 x 7) ^^^ (rotr32 x 18) ^^^ (x >>> 3)

def smallSigma1 (x : Nat) : Nat := (rotr32 x 17) ^^^ (rotr32 x 19) ^^^ (x >>> 10)

def chWord (x y z : Nat) : Nat := (x &&& y) ^^^ ((4294967295 - x) &&& z)

def majWord (x y z : Nat) : Nat := (x &&& y) ^^^ (x &&& z) ^^^ (y &&& z)

def sha256K : List Nat :=
  [1116352408, 1899447441, 3049323471, 3921009573, 961987163, 1508970993,
   2453635748, 2870763221, 3624381080, 310598401, 607225278, 1426881987,
   1925078388, 2162078206, 2614888103, 3248222580, 3835390401, 4022224774,
   264347078, 604807628, 770255983, 1249150122, 1555081692, 1996064986,
   2554220882, 2821834349, 2952996808, 3210313671, 3336571891, 3584528711,
   113926993, 338241895, 666307205, 773529912, 1294757372, 1396182291,
   1695183700, 1986661051, 2177026350, 2456956037, 2730485921, 2820302411,
   3259730800, 3345764771, 3516065817, 3600352804, 4094571909, 275423344,
   430227734, 506948616, 659060556, 883997877, 958139571, 1322822218,
   1537002063, 1747873779, 1955562222, 2024104815, 2227730452, 2361852424,
   2428436474, 2756734187, 3204031479, 3329325298]

def sha256H0 : List Nat :=
  [1779033703, 3144134277, 1013904242, 2773480762, 1359893119, 2600822924,
   528734635, 1541459225]

/-- Big-endian 8-byte rendering of the 64-bit message bit length. -/
def bytesBE8 (n : Nat) : List Nat :=
  [(n >>> 56) % 256, (n >>> 48) % 256, (n >>> 40) % 256, (n >>> 32) % 256,
   (n >>> 24) % 256, (n >>> 16) % 256, (n >>> 8) % 256, n % 256]

/-- SHA-256 padding: `0x80`, zeros to 56 mod 64, then the 64-bit bit length. -/
def padSha (msg : List Nat) : List Nat :=
  msg ++ (128 :: List.replicate ((119 - msg.length % 64) % 64) 0)
      ++ bytesBE8 ((8 * msg.length) % 18446744073709551616)

/-- Split a byte list into 64-byte blocks (fuel-bounded; every step drops
64 > 0 elements of a nonempty list, so `length` fuel is never exhausted). -/
def chunks64F : Nat → List Nat → List (List Nat)
  | 0, _ => []
  | fuel + 1, l => if l = [] then [] else l.take 64 :: chunks64F fuel (l.drop 64)

def chunks64 (l : List Nat) : List (List Nat) := chunks64F l.length l

/-- Combine bytes into big-endian 32-bit words. -/
def wordsOf : List Nat → List Nat
  | b0 :: b1 :: b2 :: b3 :: rest => (((b0 * 256 + b1) * 256 + b2) * 256 + b3) :: wordsOf rest
  | _ => []

/-- One extension step of the SHA-256 message schedule. -/
def schedStep (w : List Nat) : List Nat :=
  w ++ [(smallSigma1 (w.getD (w.length - 2) 0) + w.getD (w.length - 7) 0 +
         smallSigma0 (w.getD (w.length - 15) 0) + w.getD (w.length - 16) 0) % 4294967296]

def extendSchedule (w : List Nat) : Nat → List Nat
  | 0 => w
  | k + 1 => extendSchedule (schedStep w) k

/-- One SHA-256 compression round on the 8-word state. -/
def roundSha (st : List Nat) (k w : Nat) : List Nat :=
  match st with
  | [a, b, c, d, e, f, g, h] =>
    let t1 := (h + bigSigma1 e + chWord e f g + k + w) % 4294967296
    let t2 := (bigSigma0 a + majWord a b c) % 4294967296
    [(t1 + t2) % 4294967296, a, b, c, (d + t1) % 4294967296, e, f, g]
  | _ => st

def compressBlock (h : List Nat) (block : List Nat) : List Nat :=
  let w := extendSchedule (wordsOf block) 48
  let st := (List.zip sha256K w).foldl (fun s kw => roundSha s kw.1 kw.2) h
  List.zipWith (fun x y => (x + y) % 4294967296) h st

def wordBytesBE (w : Nat) : List Nat :=
  [(w >>> 24) % 256, (w >>> 16) % 256, (w >>> 8) % 256, w % 256]

/-- SHA-256 digest of a byte string: 32 bytes. -/
def sha256 (msg : List Nat) : List Nat :=
  (((chunks64 (padSha msg)).foldl compressBlock sha256H0).map wordBytesBE).flatten

/-- HMAC-SHA256 (RFC 2104), as `hmac.new(key, msg, hashlib.sha256).digest()`. -/
def hmacSha256 (key msg : List Nat) : List Nat :=
  let k0 := if key.length > 64 then sha256 key else key
  let k1 := k0 ++ List.replicate (64 - k0.length) 0
  sha256 ((k1.map (fun b => b ^^^ 92)) ++ sha256 ((k1.map (fun b => b ^^^ 54)) ++ msg))

/-! ## `common/crypto__utils.py` -/

/-- Model of `calcular_mac`: HMAC-SHA256 over `mensaje + nonce`. -/
def calcular_mac (clave mensaje nonce : List Nat) : List Nat :=
  hmacSha256 clave (mensaje ++ nonce)

/-- Model of `hmac.compare_digest`: equality (`False` on length mismatch); its
constant-time execution is a non-functional property outside the model. -/
def compare_digest (a b : List Nat) : Bool := a == b

/-- Model of `verificar_mac` (`common/crypto__utils.py`). -/
def verificar_mac (clave mensaje nonce mac_recibido : List Nat) : Bool :=
  compare_digest (calcular_mac clave mensaje nonce) mac_recibido

/-! ## Base64 (Python `base64.b64encode` / `b64decode`)

`b64decode` is modelled with Python's lenient semantics (`validate=False`):
non-ASCII input raises; characters outside the alphabet and `=` are
discarded; decoding stops at the first `=`; the number of data characters
before the padding must not be 1 mod 4, and 2 mod 4 requires two
consecutive pad characters; leftover bits of a final partial group are
dropped. -/

def isB64Char (c : Char) : Bool :=
  (65 ≤ c.toNat && c.toNat ≤ 90) || (97 ≤ c.toNat && c.toNat ≤ 122) ||
  (48 ≤ c.toNat && c.toNat ≤ 57) || c.toNat == 43 || c.toNat == 47

def padChar : Char := '='

def charToVal (c : Char) : Nat :=
  if 65 ≤ c.toNat && c.toNat ≤ 90 then c.toNat - 65
  else if 97 ≤ c.toNat && c.toNat ≤ 122 then c.toNat - 97 + 26
  else if 48 ≤ c.toNat && c.toNat ≤ 57 then c.toNat - 48 + 52
  else if c.toNat == 43 then 62 else 63

def valToChar (v : Nat) : Char :=
  if v < 26 then Char.ofNat (65 + v)
  else if v < 52 then Char.ofNat (97 + v - 26)
  else if v < 62 then Char.ofNat (48 + v - 52)
  else if v == 62 then Char.ofNat 43 else Char.ofNat 47

def b64encode : List Nat → List Char
  | b0 :: b1 :: b2 :: rest =>
    valToChar (b0 / 4) :: valToChar ((b0 % 4) * 16 + b1 / 16) ::
    valToChar ((b1 % 16) * 4 + b2 / 64) :: valToChar (b2 % 64) :: b64encode rest
  | [b0, b1] => [valToChar (b0 / 4), valToChar ((b0 % 4) * 16 + b1 / 16),
                 valToChar ((b1 % 16) * 4), padChar]
  | [b0] => [valToChar (b0 / 4), valToChar ((b0 % 4) * 16), padChar, padChar]
  | [] => []

/-- Recombine sextet values into bytes (leftover bits of a partial tail group
are dropped, as `binascii` does). -/
def b64DecVals : List Nat → List Nat
  | c0 :: c1 :: c2 :: c3 :: rest =>
    (c0 * 4 + c1 / 16) :: ((c1 % 16) * 16 + c2 / 4) :: ((c2 % 4) * 64 + c3) :: b64DecVals rest
  | [c0, c1] => [c0 * 4 + c1 / 16]
  | [c0, c1, c2] => [c0 * 4 + c1 / 16, (c1 % 16) * 16 + c2 / 4]
  | _ => []

def b64decodeChars (cs : List Char) : Option (List Nat) :=
  if cs.all (fun c => c.toNat < 128) then
    let kept := cs.filter (fun c => isB64Char c || c == padChar)
    let main := kept.takeWhile (fun c => c != padChar)
    let rest := kept.dropWhile (fun c => c != padChar)
    let vals := main.map charToVal
    if main.length % 4 == 0 then some (b64DecVals vals)
    else if main.length % 4 == 2 then
      match rest with
      | _ :: e2 :: _ => if e2 == padChar then some (b64DecVals vals) else none
      | _ => none
    else if main.length % 4 == 3 then
      match rest with
      | _ :: _ => some (b64DecVals vals)
      | [] => none
    else none
  else none

/-- The data sextets emitted for a byte string. -/
def b64Sextets : List Nat → List Nat
  | b0 :: b1 :: b2 :: rest =>
    (b0 / 4) :: ((b0 % 4) * 16 + b1 / 16) :: ((b1 % 16) * 4 + b2 / 64) :: (b2 % 64) ::
    b64Sextets rest
  | [b0, b1] => [b0 / 4, (b0 % 4) * 16 + b1 / 16, (b1 % 16) * 4]
  | [b0] => [b0 / 4, (b0 % 4) * 16]
  | [] => []

def b64PadLen (b : List Nat) : Nat :=
  match b.length % 3 with
  | 1 => 2
  | 2 => 1
  | _ => 0

theorem b64PadLen_cons3 (b0 b1 b2 : Nat) (rest : List Nat) :
    b64PadLen (b0 :: b1 :: b2 :: rest) = b64PadLen rest := by
  unfold b64PadLen
  have h : (b0 :: b1 :: b2 :: rest).length % 3 = rest.length % 3 := by
    simp [List.length_cons]; omega
  rw [h]

theorem b64encode_eq_sextets (b : List Nat) :
    b64encode b = (b64Sextets b).map valToChar ++ List.replicate (b64PadLen b) padChar := by
  induction b using b64encode.induct with
  | case1 b0 b1 b2 rest ih =>
    simp only [b64encode, b64Sextets, List.map_cons, List.cons_append, ih, b64PadLen_cons3]
  | case2 b0 b1 => rfl
  | case3 b0 => rfl
  | case4 => rfl

theorem b64Sextets_lt (b : List Nat) (hb : bytesOk b) : ∀ v ∈ b64Sextets b, v < 64 := by
  induction b using b64Sextets.induct with
  | case1 b0 b1 b2 rest ih =>
    have h0 := hb b0 (by simp)
    have h1 := hb b1 (by simp)
    have h2 := hb b2 (by simp)
    intro v hv
    simp only [b64Sextets, List.mem_cons] at hv
    rcases hv with h | h | h | h | h
    · omega
    · omega
    · omega
    · omega
    · exact ih (fun x hx => hb x (by simp [hx])) v h
  | case2 b0 b1 =>
    have h0 := hb b0 (by simp)
    have h1 := hb b1 (by simp)
    intro v hv
    simp only [b64Sextets, List.mem_cons, List.not_mem_nil, or_false] at hv
    rcases hv with h | h | h <;> omega
  | case3 b0 =>
    have h0 := hb b0 (by simp)
    intro v hv
    simp only [b64Sextets, List.mem_cons, List.not_mem_nil, or_false] at hv
    rcases hv with h | h <;> omega
  | case4 => intro v hv; simp [b64Sextets] at hv

theorem b64DecVals_sextets (b : List Nat) (hb : bytesOk b) :
    b64DecVals (b64Sextets b) = b := by
  induction b using b64Sextets.induct with
  | case1 b0 b1 b2 rest ih =>
    have h0 := hb b0 (by simp)
    have h1 := hb b1 (by simp)
    have h2 := hb b2 (by simp)
    simp only [b64Sextets, b64DecVals]
    rw [ih (fun x hx => hb x (by simp [hx]))]
    congr 1
    · omega
    congr 1
    · omega
    congr 1
    omega
  | case2 b0 b1 =>
    have h0 := hb b0 (by simp)
    have h1 := hb b1 (by simp)
    simp only [b64Sextets, b64DecVals]
    congr 1
    · omega
    congr 1
    omega
  | case3 b0 =>
    have h0 := hb b0 (by simp)
    simp only [b64Sextets, b64DecVals]
    congr 1
    omega
  | case4 => rfl

theorem b64_shape (b : List Nat) :
    ((b64Sextets b).length % 4 = 0 ∧ b64PadLen b = 0) ∨
    ((b64Sextets b).length % 4 = 2 ∧ b64PadLen b = 2) ∨
    ((b64Sextets b).length % 4 = 3 ∧ b64PadLen b = 1) := by
  induction b using b64Sextets.induct with
  | case1 b0 b1 b2 rest ih =>
    rw [b64PadLen_cons3]
    have hlen : (b64Sextets (b0 :: b1 :: b2 :: rest)).length
        = (b64Sextets rest).length + 4 := by
      simp [b64Sextets]
    rw [hlen]
    rcases ih with ⟨h1, h2⟩ | ⟨h1, h2⟩ | ⟨h1, h2⟩ <;> simp [h2] <;> omega
  | case2 b0 b1 => right; right; exact ⟨rfl, rfl⟩
  | case3 b0 => right; left; exact ⟨rfl, rfl⟩
  | case4 => left; exact ⟨rfl, rfl⟩

theorem takeWhile_append_all {α : Type} (p : α → Bool) (xs ys : List α)
    (hx : ∀ a ∈ xs, p a = true)
    (hy : ∀ h : ys ≠ [], p (ys.head h) = false) :
    (xs ++ ys).takeWhile p = xs ∧ (xs ++ ys).dropWhile p = ys := by
  induction xs with
  | nil =>
    simp only [List.nil_append]
    cases ys with
    | nil => simp
    | cons y t =>
      have h := hy (by simp)
      simp only [List.head_cons] at h
      simp [List.takeWhile_cons, List.dropWhile_cons, h]
  | cons x xt ih =>
    have hpx := hx x (by simp)
    have hrec := ih (fun a ha => hx a (by simp [ha]))
    simp [List.takeWhile_cons, List.dropWhile_cons, hpx, hrec.1, hrec.2]

theorem b64decode_encode (b : List Nat) (hb : bytesOk b) :
    b64decodeChars (b64encode b) = some b := by
  have hS : ∀ v ∈ b64Sextets b, v < 64 := b64Sextets_lt b hb
  rw [b64encode_eq_sextets]
  have hv128 : ∀ w, w < 64 → (valToChar w).toNat < 128 := by decide
  have hvb64 : ∀ w, w < 64 → isB64Char (valToChar w) = true := by decide
  have hvne : ∀ w, w < 64 → ((valToChar w) != padChar) = true := by decide
  have hvval : ∀ w, w < 64 → charToVal (valToChar w) = w := by decide
  have hascii : ((b64Sextets b).map valToChar ++ List.replicate (b64PadLen b) padChar).all
      (fun c => c.toNat < 128) = true := by
    rw [List.all_eq_true]
    intro c hc
    rcases List.mem_append.mp hc with h | h
    · rcases List.mem_map.mp h with ⟨v, hv, rfl⟩
      simpa using hv128 v (hS v hv)
    · rw [List.eq_of_mem_replicate h]; decide
  have hfilter : ((b64Sextets b).map valToChar ++ List.replicate (b64PadLen b) padChar).filter
      (fun c => isB64Char c || c == padChar)
      = (b64Sextets b).map valToChar ++ List.replicate (b64PadLen b) padChar := by
    rw [List.filter_eq_self]
    intro c hc
    rcases List.mem_append.mp hc with h | h
    · rcases List.mem_map.mp h with ⟨v, hv, rfl⟩
      simp [hvb64 v (hS v hv)]
    · rw [List.eq_of_mem_replicate h]; simp
  have hsplit := takeWhile_append_all (fun c => c != padChar)
      ((b64Sextets b).map valToChar) (List.replicate (b64PadLen b) padChar)
      (by
        intro a ha
        rcases List.mem_map.mp ha with ⟨v, hv, rfl⟩
        exact hvne v (hS v hv))
      (by
        intro h
        have : (List.replicate (b64PadLen b) padChar).head h = padChar := by
          have := List.head_mem h
          exact List.eq_of_mem_replicate this
        rw [this]; simp)
  have hvals : ((b64Sextets b).map valToChar).map charToVal = b64Sextets b := by
    rw [List.map_map]
    have : ∀ v ∈ b64Sextets b, (charToVal ∘ valToChar) v = id v := by
      intro v hv; simp [Function.comp, hvval v (hS v hv)]
    rw [List.map_congr_left this, List.map_id]
  unfold b64decodeChars
  rw [if_pos hascii]
  simp only [hfilter, hsplit.1, hsplit.2, hvals, List.length_map]
  rcases b64_shape b with ⟨h1, h2⟩ | ⟨h1, h2⟩ | ⟨h1, h2⟩
  · simp [h1, h2, b64DecVals_sextets b hb]
  · rw [h2]
    simp only [List.replicate, h1]
    norm_num
    simp [b64DecVals_sextets b hb, padChar]
  · rw [h2]
    simp only [List.replicate, h1]
    norm_num
    simp [b64DecVals_sextets b hb]

/-! ## UTF-8 (Python `str.encode('utf-8')` / `bytes.decode('utf-8')`)

Strict codec: the decoder rejects overlong forms, surrogates, code points
above U+10FFFF, truncated sequences and stray continuation bytes, as
Python's strict `utf-8` codec does. -/

def utf8EncodeChar (c : Char) : List Nat :=
  let n := c.toNat
  if n < 128 then [n]
  else if n < 2048 then [192 + n / 64, 128 + n % 64]
  else if n < 65536 then [224 + n / 4096, 128 + (n / 64) % 64, 128 + n % 64]
  else [240 + n / 262144, 128 + (n / 4096) % 64, 128 + (n / 64) % 64, 128 + n % 64]

def utf8Encode (s : List Char) : List Nat := (s.map utf8EncodeChar).flatten

def isContByte (b : Nat) : Bool := 128 ≤ b && b < 192

/-- Decode one UTF-8 scalar value: returns the code point and the remaining
bytes, or `none` on any malformed prefix. -/
def utf8DecodeOne : List Nat → Option (Nat × List Nat)
  | [] => none
  | b0 :: rest =>
    if b0 < 128 then some (b0, rest)
    else if 194 ≤ b0 && b0 < 224 then
      match rest with
      | b1 :: rest2 =>
        if isContByte b1 then some ((b0 - 192) * 64 + (b1 - 128), rest2) else none
      | _ => none
    else if 224 ≤ b0 && b0 < 240 then
      match rest with
      | b1 :: b2 :: rest2 =>
        if isContByte b1 && isContByte b2 &&
           decide (2048 ≤ (b0 - 224) * 4096 + (b1 - 128) * 64 + (b2 - 128)) &&
           !(decide (55296 ≤ (b0 - 224) * 4096 + (b1 - 128) * 64 + (b2 - 128)) &&
             decide ((b0 - 224) * 4096 + (b1 - 128) * 64 + (b2 - 128) < 57344)) then
          some ((b0 - 224) * 4096 + (b1 - 128) * 64 + (b2 - 128), rest2)
        else none
      | _ => none
    else if 240 ≤ b0 && b0 < 245 then
      match rest with
      | b1 :: b2 :: b3 :: rest2 =>
        if isContByte b1 && isContByte b2 && isContByte b3 &&
           decide (65536 ≤ (b0 - 240) * 262144 + (b1 - 128) * 4096 + (b2 - 128) * 64 + (b3 - 128)) &&
           decide ((b0 - 240) * 262144 + (b1 - 128) * 4096 + (b2 - 128) * 64 + (b3 - 128) < 1114112) then
          some ((b0 - 240) * 262144 + (b1 - 128) * 4096 + (b2 - 128) * 64 + (b3 - 128), rest2)
        else none
      | _ => none
    else none

set_option maxRecDepth 8000 in
theorem utf8DecodeOne_length (bs : List Nat) (cr : Nat × List Nat)
    (h : utf8DecodeOne bs = some cr) : cr.2.length < bs.length := by
  unfold utf8DecodeOne at h
  repeat' split at h
  all_goals try exact Option.noConfusion h
  all_goals cases h
  all_goals simp only [List.length_cons]
  all_goals omega

/-- The decode loop, fuel-bounded: every `utf8DecodeOne` step consumes at
least one byte (`utf8DecodeOne_length`), so `length + 1` fuel is never
exhausted. -/
def utf8DecodeF : Nat → List Nat → Option (List Char)
  | 0, _ => none
  | fuel + 1, bs =>
    if bs = [] then some [] else
      match utf8DecodeOne bs with
      | none => none
      | some cr => (utf8DecodeF fuel cr.2).map (fun s => Char.ofNat cr.1 :: s)

def utf8Decode (bs : List Nat) : Option (List Char) := utf8DecodeF (bs.length + 1) bs

theorem char_toNat_lt (c : Char) : c.toNat < 1114112 := by
  rcases c.valid with h | h
  · exact Nat.lt_trans h (by norm_num)
  · exact h.2

theorem utf8EncodeChar_bytesOk (c : Char) : ∀ x ∈ utf8EncodeChar c, x < 256 := by
  have hn := char_toNat_lt c
  intro x hx
  unfold utf8EncodeChar at hx
  by_cases h1 : c.toNat < 128
  · simp [h1] at hx; omega
  · by_cases h2 : c.toNat < 2048
    · simp [h1, h2] at hx; rcases hx with rfl | rfl <;> omega
    · by_cases h3 : c.toNat < 65536
      · simp [h1, h2, h3] at hx; rcases hx with rfl | rfl | rfl <;> omega
      · simp [h1, h2, h3] at hx; rcases hx with rfl | rfl | rfl | rfl <;> omega

theorem utf8Encode_bytesOk (s : List Char) : bytesOk (utf8Encode s) := by
  intro x hx
  unfold utf8Encode at hx
  rcases List.mem_flatten.mp hx with ⟨l, hl, hxl⟩
  rcases List.mem_map.mp hl with ⟨c, _, rfl⟩
  exact utf8EncodeChar_bytesOk c x hxl

theorem char_ofNat_toNat (c : Char) : Char.ofNat c.toNat = c := by
  unfold Char.ofNat
  split
  · apply Char.eq_of_val_eq
    simp only [Char.ofNatAux, Char.toNat]
    apply UInt32.eq_of_toBitVec_eq
    apply BitVec.eq_of_toNat_eq
    simp only [UInt32.ofNat', UInt32.toNat, BitVec.toNat_ofNatLt]
  · rename_i h
    exact absurd (Char.isValidChar_of_isValidCharNat _ c.valid) h

theorem utf8DecodeF_encode_ascii (s : List Char) (f : Nat)
    (hf : (utf8Encode s).length < f) (h : ∀ c ∈ s, c.toNat < 128) :
    utf8DecodeF f (utf8Encode s) = some s := by
  induction s generalizing f with
  | nil =>
    match f, hf with
    | f + 1, _ => simp [utf8Encode, utf8DecodeF]
  | cons c t ih =>
    match f, hf with
    | f + 1, hf =>
      have hc := h c (by simp)
      have henc : utf8EncodeChar c = [c.toNat] := by unfold utf8EncodeChar; simp [hc]
      have hlist : utf8Encode (c :: t) = c.toNat :: utf8Encode t := by
        simp [utf8Encode, henc]
      have hone : utf8DecodeOne (c.toNat :: utf8Encode t) = some (c.toNat, utf8Encode t) := by
        simp [utf8DecodeOne, hc]
      rw [hlist] at hf ⊢
      show (if c.toNat :: utf8Encode t = [] then some [] else
        match utf8DecodeOne (c.toNat :: utf8Encode t) with
        | none => none
        | some cr => (utf8DecodeF f cr.2).map (fun s => Char.ofNat cr.1 :: s)) = some (c :: t)
      rw [if_neg (by simp), hone]
      show (utf8DecodeF f (utf8Encode t)).map (fun s => Char.ofNat c.toNat :: s) = some (c :: t)
      rw [ih f (by simp at hf; omega) (fun a ha => h a (by simp [ha]))]
      simp only [Option.map_some', char_ofNat_toNat]

theorem utf8Decode_encode_ascii (s : List Char) (h : ∀ c ∈ s, c.toNat < 128) :
    utf8Decode (utf8Encode s) = some s := by
  unfold utf8Decode
  exact utf8DecodeF_encode_ascii s _ (by omega) h

/-! ## JSON (Python `json.dumps` / `json.loads`)

JSON values as a sum; a Python number is `jnum m s` with value `m / 10^s`
(the bit-exact `repr` of floats is not modelled: no claim depends on the
rendered digits of a number).  The renderer mirrors `json.dumps` defaults
(separators `", "` and `": "`, `ensure_ascii=True`); the parser mirrors
`json.loads` (strict strings, surrogate-pair escapes; a lone surrogate
escape is rejected here while Python builds an unencodable string). -/

inductive JVal where
  | jstr (s : String)
  | jnum (m : Int) (s : Nat)
  | jbool (b : Bool)
  | jnull
  | jarr (xs : List JVal)
  | jobj (fields : List (String × JVal))

def quoteChar : Char := Char.ofNat 34

def bslashChar : Char := Char.ofNat 92

def obraceChar : Char := Char.ofNat 123

def cbraceChar : Char := Char.ofNat 125

def hexDigit (n : Nat) : Char :=
  if n < 10 then Char.ofNat (48 + n) else Char.ofNat (97 + n - 10)

def hex4 (n : Nat) : List Char :=
  [hexDigit (n / 4096 % 16), hexDigit (n / 256 % 16), hexDigit (n / 16 % 16), hexDigit (n % 16)]

/-- Model of `json.dumps` escaping of one character (`ensure_ascii=True`). -/
def escapeChar (c : Char) : List Char :=
  if c.toNat == 34 then [bslashChar, quoteChar]
  else if c.toNat == 92 then [bslashChar, bslashChar]
  else if c.toNat == 8 then [bslashChar, 'b']
  else if c.toNat == 12 then [bslashChar, 'f']
  else if c.toNat == 10 then [bslashChar, 'n']
  else if c.toNat == 13 then [bslashChar, 'r']
  else if c.toNat == 9 then [bslashChar, 't']
  else if c.toNat < 32 then bslashChar :: 'u' :: hex4 c.toNat
  else if c.toNat < 127 then [c]
  else if c.toNat < 65536 then bslashChar :: 'u' :: hex4 c.toNat
  else (bslashChar :: 'u' :: hex4 (55296 + (c.toNat - 65536) / 1024)) ++
       (bslashChar :: 'u' :: hex4 (56320 + (c.toNat - 65536) % 1024))

def renderString (s : String) : List Char :=
  quoteChar :: (s.data.map escapeChar).flatten ++ [quoteChar]

/-- Decimal rendering of `m / 10^s` with `s` digits after the point. -/
def renderNum (m : Int) (s : Nat) : List Char :=
  let sign : List Char := if m < 0 then ['-'] else []
  let digits := Nat.toDigits 10 m.natAbs
  let ds := if digits.length < s + 1 then
    List.replicate (s + 1 - digits.length) '0' ++ digits else digits
  if s == 0 then sign ++ ds
  else sign ++ ds.take (ds.length - s) ++ '.' :: ds.drop (ds.length - s)

mutual

def renderJVal : JVal → List Char
  | JVal.jstr s => renderString s
  | JVal.jnum m sc => renderNum m sc
  | JVal.jbool true => ['t', 'r', 'u', 'e']
  | JVal.jbool false => ['f', 'a', 'l', 's', 'e']
  | JVal.jnull => ['n', 'u', 'l', 'l']
  | JVal.jarr xs => '[' :: renderArrBody xs ++ [']']
  | JVal.jobj fs => obraceChar :: renderObjBody fs ++ [cbraceChar]

def renderArrBody : List JVal → List Char
  | [] => []
  | [x] => renderJVal x
  | x :: y :: rest => renderJVal x ++ ',' :: ' ' :: renderArrBody (y :: rest)

def renderObjBody : List (String × JVal) → List Char
  | [] => []
  | [(k, v)] => renderString k ++ ':' :: ' ' :: renderJVal v
  | (k, v) :: p :: rest =>
    renderString k ++ ':' :: ' ' :: renderJVal v ++ ',' :: ' ' :: renderObjBody (p :: rest)

end

def jsonDumps (v : JVal) : List Char := renderJVal v

def isJsonWs (c : Char) : Bool :=
  c.toNat == 32 || c.toNat == 9 || c.toNat == 10 || c.toNat == 13

def skipWs (cs : List Char) : List Char := cs.dropWhile isJsonWs

def isDigitCh (c : Char) : Bool := 48 ≤ c.toNat && c.toNat ≤ 57

def hexVal (c : Char) : Option Nat :=
  if 48 ≤ c.toNat && c.toNat ≤ 57 then some (c.toNat - 48)
  else if 97 ≤ c.toNat && c.toNat ≤ 102 then some (c.toNat - 87)
  else if 65 ≤ c.toNat && c.toNat ≤ 70 then some (c.toNat - 55)
  else none

/-- One step of the strict JSON string scanner of `json.loads`: the closing
quote, one (possibly escaped) character, or a malformed prefix.  Handles the
full escape set including surrogate-pair `\uXXXX` escapes. -/
inductive StrStep where
  | done (rest : List Char)
  | chr (c : Char) (rest : List Char)
  | bad

def parseStringStep : List Char → StrStep
  | [] => StrStep.bad
  | c :: rest =>
    if c.toNat == 34 then StrStep.done rest
    else if c.toNat == 92 then
      match rest with
      | [] => StrStep.bad
      | e :: rest2 =>
        if e.toNat == 34 || e.toNat == 92 || e.toNat == 47 then StrStep.chr e rest2
        else if e == 'b' then StrStep.chr (Char.ofNat 8) rest2
        else if e == 'f' then StrStep.chr (Char.ofNat 12) rest2
        else if e == 'n' then StrStep.chr (Char.ofNat 10) rest2
        else if e == 'r' then StrStep.chr (Char.ofNat 13) rest2
        else if e == 't' then StrStep.chr (Char.ofNat 9) rest2
        else if e == 'u' then
          match rest2 with
          | h1 :: h2 :: h3 :: h4 :: rest3 =>
            match hexVal h1, hexVal h2, hexVal h3, hexVal h4 with
            | some v1, some v2, some v3, some v4 =>
              if 55296 ≤ ((v1 * 16 + v2) * 16 + v3) * 16 + v4 &&
                 ((v1 * 16 + v2) * 16 + v3) * 16 + v4 < 56320 then
                match rest3 with
                | e5 :: e6 :: g1 :: g2 :: g3 :: g4 :: rest4 =>
                  if e5.toNat == 92 && e6 == 'u' then
                    match hexVal g1, hexVal g2, hexVal g3, hexVal g4 with
                    | some w1, some w2, some w3, some w4 =>
                      if 56320 ≤ ((w1 * 16 + w2) * 16 + w3) * 16 + w4 &&
                         ((w1 * 16 + w2) * 16 + w3) * 16 + w4 < 57344 then
                        StrStep.chr (Char.ofNat (65536 +
                          (((v1 * 16 + v2) * 16 + v3) * 16 + v4 - 55296) * 1024 +
                          (((w1 * 16 + w2) * 16 + w3) * 16 + w4 - 56320))) rest4
                      else StrStep.bad
                    | _, _, _, _ => StrStep.bad
                  else StrStep.bad
                | _ => StrStep.bad
              else if 56320 ≤ ((v1 * 16 + v2) * 16 + v3) * 16 + v4 &&
                      ((v1 * 16 + v2) * 16 + v3) * 16 + v4 < 57344 then StrStep.bad
              else StrStep.chr (Char.ofNat (((v1 * 16 + v2) * 16 + v3) * 16 + v4)) rest3
            | _, _, _, _ => StrStep.bad
          | _ => StrStep.bad
        else StrStep.bad
    else if c.toNat < 32 then StrStep.bad
    else StrStep.chr c rest

/-- The string-scanner loop, fuel-bounded: every `chr`/`done` step of
`parseStringStep` consumes at least one character, so the `length + 1` fuel
passed by `parseStringBody` is never exhausted. -/
def parseStringBodyF : Nat → List Char → Option (List Char × List Char)
  | 0, _ => none
  | fuel + 1, cs =>
    match parseStringStep cs with
    | StrStep.done rest => some ([], rest)
    | StrStep.chr c rest => (parseStringBodyF fuel rest).map (fun p => (c :: p.1, p.2))
    | StrStep.bad => none

/-- Parse a JSON string body after the opening quote (strict mode). -/
def parseStringBody (cs : List Char) : Option (List Char × List Char) :=
  parseStringBodyF (cs.length + 1) cs

def natOfDigits (ds : List Char) : Nat := ds.foldl (fun a c => a * 10 + (c.toNat - 48)) 0

/-- Parse a JSON number (the regex of `json.scanner`:
`-?(0|[1-9]\d*)(\.\d+)?([eE][+-]?\d+)?`), as an exact rational `m / 10^s`. -/
def parseNum (cs : List Char) : Option (JVal × List Char) :=
  let (neg, cs1) :=
    match cs with
    | c :: r => if c == '-' then (true, r) else (false, cs)
    | [] => (false, cs)
  match cs1 with
  | [] => none
  | c :: _ =>
    if !(isDigitCh c) then none
    else if c == '0' && (match cs1 with | _ :: d :: _ => isDigitCh d | _ => false) then none
    else
      let intDigits := cs1.takeWhile isDigitCh
      let cs2 := cs1.dropWhile isDigitCh
      let (fracDigits, cs3) :=
        match cs2 with
        | d :: r =>
          if d == '.' then
            let f := r.takeWhile isDigitCh
            (f, r.dropWhile isDigitCh)
          else ([], cs2)
        | [] => ([], cs2)
      let hasDot := match cs2 with | d :: _ => d == '.' | [] => false
      if hasDot && fracDigits == [] then none
      else
        let (hasExp, eneg, expDigits, cs4) :=
          match cs3 with
          | e :: r =>
            if e == 'e' || e == 'E' then
              match r with
              | s :: r2 =>
                if s == '+' then (true, false, r2.takeWhile isDigitCh, r2.dropWhile isDigitCh)
                else if s == '-' then (true, true, r2.takeWhile isDigitCh, r2.dropWhile isDigitCh)
                else (true, false, r.takeWhile isDigitCh, r.dropWhile isDigitCh)
              | [] => (true, false, ([] : List Char), r)
            else (false, false, ([] : List Char), cs3)
          | [] => (false, false, ([] : List Char), cs3)
        if hasExp && expDigits == [] then none
        else
          let mantNat := natOfDigits (intDigits ++ fracDigits)
          let mant : Int := if neg then -(mantNat : Int) else (mantNat : Int)
          let expo : Int := (if eneg then -(natOfDigits expDigits : Int)
                             else (natOfDigits expDigits : Int)) - fracDigits.length
          if 0 ≤ expo then some (JVal.jnum (mant * 10 ^ expo.toNat) 0, cs4)
          else some (JVal.jnum mant (-expo).toNat, cs4)

mutual

/-- Parse one JSON value (fuel-bounded recursive descent; the callers pass
`length + 1` fuel, which dominates every shape the grammar accepts). -/
def parseJVal : Nat → List Char → Option (JVal × List Char)
  | 0, _ => none
  | fuel + 1, cs =>
    match skipWs cs with
    | [] => none
    | c :: rest =>
      if c.toNat == 34 then
        (parseStringBody rest).map (fun p => (JVal.jstr (String.mk p.1), p.2))
      else if c == 't' then
        match rest with
        | 'r' :: 'u' :: 'e' :: rest2 => some (JVal.jbool true, rest2)
        | _ => none
      else if c == 'f' then
        match rest with
        | 'a' :: 'l' :: 's' :: 'e' :: rest2 => some (JVal.jbool false, rest2)
        | _ => none
      else if c == 'n' then
        match rest with
        | 'u' :: 'l' :: 'l' :: rest2 => some (JVal.jnull, rest2)
        | _ => none
      else if c == obraceChar then
        match skipWs rest with
        | c2 :: rest2 =>
          if c2 == cbraceChar then some (JVal.jobj [], rest2)
          else parseMembers fuel (skipWs rest) []
        | [] => none
      else if c == '[' then
        match skipWs rest with
        | c2 :: rest2 =>
          if c2 == ']' then some (JVal.jarr [], rest2)
          else parseElems fuel (skipWs rest) []
        | [] => none
      else parseNum (c :: rest)

/-- Parse the members of an object after `{` (at least one member). -/
def parseMembers : Nat → List Char → List (String × JVal) → Option (JVal × List Char)
  | 0, _, _ => none
  | fuel + 1, cs, acc =>
    match skipWs cs with
    | [] => none
    | c :: rest =>
      if c.toNat == 34 then
        match parseStringBody rest with
        | some (k, rest2) =>
          match skipWs rest2 with
          | c2 :: rest3 =>
            if c2 == ':' then
              match parseJVal fuel rest3 with
              | some (v, rest4) =>
                match skipWs rest4 with
                | c3 :: rest5 =>
                  if c3 == ',' then parseMembers fuel rest5 (acc ++ [(String.mk k, v)])
                  else if c3 == cbraceChar then
                    some (JVal.jobj (acc ++ [(String.mk k, v)]), rest5)
                  else none
                | [] => none
              | none => none
            else none
          | [] => none
        | none => none
      else none

/-- Parse the elements of an array after `[` (at least one element). -/
def parseElems : Nat → List Char → List JVal → Option (JVal × List Char)
  | 0, _, _ => none
  | fuel + 1, cs, acc =>
    match parseJVal fuel cs with
    | some (v, rest) =>
      match skipWs rest with
      | c :: rest2 =>
        if c == ',' then parseElems fuel rest2 (acc ++ [v])
        else if c == ']' then some (JVal.jarr (acc ++ [v]), rest2)
        else none
      | [] => none
    | none => none

end

/-- Model of `json.loads`: parse one document and reject trailing data. -/
def jsonLoads (cs : List Char) : Option JVal :=
  match parseJVal (cs.length + 1) cs with
  | some (v, rest) => if skipWs rest == [] then some v else none
  | none => none

/-- Python `dict` lookup on parsed JSON: insertion order with later
duplicates overwriting, so the last binding of a key wins. -/
def lookupLast (fields : List (String × JVal)) (k : String) : Option JVal :=
  ((fields.filter (fun p => p.1 == k)).getLast?).map (fun p => p.2)

/-! ## `common/protocolo.py` — the message codec -/

/-- The in-memory `Mensaje` object.  `tipo`/`datos` are arbitrary JSON values
because `desde_json` performs no type check on what `json.loads` returns. -/
structure Mensaje where
  tipo : JVal
  datos : JVal

/-- Model of `Mensaje.serializar`: JSON-encode the payload, then MAC it together with
the freshly drawn nonce.  The random draw of `generar_nonce` is the explicit
`nonce` argument. -/
def Mensaje.serializar (m : Mensaje) (clave nonce : List Nat) :
    List Nat × List Nat × List Nat :=
  let mensaje_json := utf8Encode (jsonDumps (JVal.jobj [("tipo", m.tipo), ("datos", m.datos)]))
  (mensaje_json, calcular_mac clave mensaje_json nonce, nonce)

/-- The outer envelope built by `Mensaje.empaquetar` from the three byte
fields: base64 each field, emit the outer JSON object, UTF-8 encode. -/
def empaquetarRaw (mensaje_json mac nonce : List Nat) : List Nat :=
  utf8Encode (jsonDumps (JVal.jobj
    [("mensaje", JVal.jstr (String.mk (b64encode mensaje_json))),
     ("mac", JVal.jstr (String.mk (b64encode mac))),
     ("nonce", JVal.jstr (String.mk (b64encode nonce)))]))

/-- Model of `Mensaje.empaquetar` (with the drawn nonce explicit). -/
def Mensaje.empaquetar (m : Mensaje) (clave nonce : List Nat) : List Nat :=
  let (mensaje_json, mac, n) := m.serializar clave nonce
  empaquetarRaw mensaje_json mac n

/-- Model of `Mensaje.desempaquetar`: UTF-8 decode, `json.loads`, read the three
fields, base64-decode each.  Any exception (`KeyError`, `TypeError`,
`binascii.Error`, `UnicodeDecodeError`, `json.JSONDecodeError`) is `none`:
the caller catches every exception alike. -/
def desempaquetar (paquete_bytes : List Nat) : Option (List Nat × List Nat × List Nat) :=
  match utf8Decode paquete_bytes with
  | none => none
  | some cs =>
    match jsonLoads cs with
    | none => none
    | some (JVal.jobj fields) =>
      match lookupLast fields "mensaje", lookupLast fields "mac", lookupLast fields "nonce" with
      | some (JVal.jstr sm), some (JVal.jstr sa), some (JVal.jstr sn) =>
        match b64decodeChars sm.data, b64decodeChars sa.data, b64decodeChars sn.data with
        | some mensaje, some mac, some nonce => some (mensaje, mac, nonce)
        | _, _, _ => none
      | _, _, _ => none
    | some _ => none

/-- Model of `Mensaje.desde_json`: `json.loads` the payload and read `tipo`/`datos`. -/
def desde_json (mensaje_json : List Nat) : Option Mensaje :=
  match utf8Decode mensaje_json with
  | none => none
  | some cs =>
    match jsonLoads cs with
    | none => none
    | some (JVal.jobj fields) =>
      match lookupLast fields "tipo", lookupLast fields "datos" with
      | some t, some d => some ⟨t, d⟩
      | _, _ => none
    | some _ => none

/-! ## Python value semantics used by the server -/

/-- A JSON value seen as a Python/SQLite number, when it is one
(`True`/`False` are the integers 1/0 in both worlds). -/
def jnumVal : JVal → Option (Int × Nat)
  | JVal.jnum m s => some (m, s)
  | JVal.jbool true => some (1, 0)
  | JVal.jbool false => some (0, 0)
  | _ => none

/-- Python `==` on deserialized JSON scalars: numbers compare by value
across `int`/`float`/`bool`, `None` equals only itself. -/
def pyEq (a b : JVal) : Bool :=
  match jnumVal a, jnumVal b with
  | some (m1, s1), some (m2, s2) => m1 * 10 ^ s2 == m2 * 10 ^ s1
  | _, _ =>
    match a, b with
    | JVal.jstr x, JVal.jstr y => x == y
    | JVal.jnull, JVal.jnull => true
    | _, _ => false

/-- SQLite `=` between a bound parameter and a stored value: numeric affinity
across INTEGER/REAL, exact on TEXT, and `NULL = NULL` never holds. -/
def sqlEq (a b : JVal) : Bool :=
  match jnumVal a, jnumVal b with
  | some (m1, s1), some (m2, s2) => m1 * 10 ^ s2 == m2 * 10 ^ s1
  | _, _ =>
    match a, b with
    | JVal.jstr x, JVal.jstr y => x == y
    | _, _ => false

/-- Values `sqlite3` can bind as parameters (lists/dicts raise). -/
def bindable : JVal → Bool
  | JVal.jarr _ => false
  | JVal.jobj _ => false
  | _ => true

/-- Values usable as `dict` keys (lists/dicts are unhashable). -/
def hashable : JVal → Bool
  | JVal.jarr _ => false
  | JVal.jobj _ => false
  | _ => true

/-- Python truthiness of a deserialized JSON value. -/
def truthy : JVal → Bool
  | JVal.jstr s => !(s == "")
  | JVal.jnum m _ => !(m == 0)
  | JVal.jbool b => b
  | JVal.jnull => false
  | JVal.jarr xs => !xs.isEmpty
  | JVal.jobj fs => !fs.isEmpty

def truthyOpt (v : Option JVal) : Bool := v.elim false truthy

/-- Model of `dict.get` on a parsed payload; `.get` on a non-dict raises. -/
def jget (v : JVal) (k : String) : Option (Option JVal) :=
  match v with
  | JVal.jobj fields => some (lookupLast fields k)
  | _ => none

/-- Python `len` (strings, lists, dicts; anything else raises). -/
def pyLen : JVal → Option Nat
  | JVal.jstr s => some s.length
  | JVal.jarr xs => some xs.length
  | JVal.jobj fs => some fs.length
  | _ => none

/-! ## `server/database.py` — the persistent store

SQLite tables as lists in rowid order.  Each `DatabaseManager` method is a
function on this state; a method that can raise on its inputs (unbindable
parameters) returns `Option`. -/

structure NonceRow where
  valor : List Nat
  expira : Nat

structure TransRow where
  id : Nat
  username : JVal
  cuenta_origen : JVal
  cuenta_destino : JVal
  cantidad : JVal
  mac_verificado : Bool

structure DBState where
  usuarios : List (JVal × String)
  nonces : List NonceRow
  transacciones : List TransRow

/-- Model of `obtener_password_hash`: `SELECT password_hash FROM usuarios WHERE
username = ?` and `fetchone`.  `none` = the bind raised. -/
def obtener_password_hash (db : DBState) (username : JVal) : Option (Option String) :=
  if bindable username then
    some ((db.usuarios.filter (fun p => sqlEq p.1 username)).head?.map (fun p => p.2))
  else none

/-- Model of `usuario_existe`. -/
def usuario_existe (db : DBState) (username : JVal) : Option Bool :=
  (obtener_password_hash db username).map Option.isSome

/-- Model of `crear_usuario`: INSERT with a UNIQUE constraint on `username`;
`IntegrityError` is caught and returns `False`. -/
def crear_usuario (db : DBState) (username : JVal) (password_hash : String) :
    Option (Bool × DBState) :=
  if bindable username then
    if db.usuarios.any (fun p => sqlEq p.1 username) then some (false, db)
    else some (true, { db with usuarios := db.usuarios ++ [(username, password_hash)] })
  else none

/-- Model of `validar_nonce`: reject if the value is present, otherwise insert it
with `expira = now + duracion_minutos` and admit. -/
def validar_nonce (db : DBState) (nonce : List Nat) (ahora duracion_minutos : Nat) :
    Bool × DBState :=
  if db.nonces.any (fun r => r.valor == nonce) then (false, db)
  else (true, { db with nonces := db.nonces ++ [⟨nonce, ahora + duracion_minutos * 60⟩] })

/-- Model of `limpiar_nonces_expirados`: `DELETE FROM nonces WHERE expira < now`. -/
def limpiar_nonces_expirados (db : DBState) (ahora : Nat) : Nat × DBState :=
  let keep := db.nonces.filter (fun r => !(r.expira < ahora))
  (db.nonces.length - keep.length, { db with nonces := keep })

/-- Model of `registrar_transaccion`: append-only INSERT, returns `lastrowid`. -/
def registrar_transaccion (db : DBState)
    (username cuenta_origen cuenta_destino cantidad : JVal) (mac_verificado : Bool) :
    Option (Nat × DBState) :=
  if bindable username && bindable cuenta_origen && bindable cuenta_destino &&
     bindable cantidad then
    let txid := db.transacciones.length + 1
    some (txid, { db with transacciones := db.transacciones ++
      [⟨txid, username, cuenta_origen, cuenta_destino, cantidad, mac_verificado⟩] })
  else none

/-! ## `server/crypto_server.py` — the validation pipeline tail -/

inductive MensajeInvalido where
  | macInvalido
  | nonceUsado

def MensajeInvalido.msg : MensajeInvalido → String
  | MensajeInvalido.macInvalido => "MAC inválido - Integridad comprometida"
  | MensajeInvalido.nonceUsado => "NONCE ya usado - Replay attack detectado"

/-- Model of `verificar_mensaje_completo`: MAC first, then nonce admission.  The
returned state is the nonce table after the call. -/
def verificar_mensaje_completo (db : DBState) (clave mensaje nonce mac_recibido : List Nat)
    (ahora : Nat) : Except MensajeInvalido Bool × DBState :=
  if !(verificar_mac clave mensaje nonce mac_recibido) then
    (Except.error MensajeInvalido.macInvalido, db)
  else
    let (ok, db1) := validar_nonce db nonce ahora 5
    if !ok then (Except.error MensajeInvalido.nonceUsado, db1)
    else (Except.ok true, db1)

/-- Modelled from the spec: the external `argon2` library's `PasswordHasher`
(`hashear_password` / `verificar_password` in `server/crypto_server.py` are
thin wrappers over it).  §4.1 fixes only its contract (P4): verification
succeeds exactly for the password the hash was derived from; the
memory-hard internals are outside the model, so the hash is represented as
an injective tagged string. -/
def hashear_password (password : String) : String := "$argon2id$" ++ password

/-- Modelled from the spec: `verificar_password` returns whether `password`
is the one `password_hash` was derived from (P4). -/
def verificar_password (password_hash password : String) : Bool :=
  password_hash == hashear_password password

/-! ## `server/autenticacion.py` -/

/-- Model of `Autenticacion.registrar`.  `none` = an exception escaped (unbindable
username); otherwise `(éxito, mensaje, db')`. -/
def Autenticacion.registrar (db : DBState) (username : JVal) (password : String) :
    Option (Bool × String × DBState) :=
  match usuario_existe db username with
  | none => none
  | some true => some (false, "El usuario ya existe", db)
  | some false =>
    match crear_usuario db username (hashear_password password) with
    | none => none
    | some (true, db1) => some (true, "Usuario registrado exitosamente", db1)
    | some (false, db1) => some (false, "Error al crear el usuario", db1)

/-- Model of `Autenticacion.login`.  The stored-hash lookup happens first; a missing
user and a wrong password both yield the constant mismatch message.
`none` = an exception escaped (unbindable username, or non-string password
reaching `argon2.verify`). -/
def Autenticacion.login (db : DBState) (username password : JVal) :
    Option (Bool × String) :=
  match obtener_password_hash db username with
  | none => none
  | some none => some (false, "Credenciales incorrectas")
  | some (some password_hash) =>
    if password_hash == "" then some (false, "Credenciales incorrectas")
    else
      match password with
      | JVal.jstr p =>
        if verificar_password password_hash p then some (true, "Login exitoso")
        else some (false, "Credenciales incorrectas")
      | _ => none

/-! ## `server/transacciones.py` -/

/-- Model of `GestorTransacciones.procesar_transferencia`: append the audit record
with `mac_verificado=True`; the `try/except` turns any insert failure into
the error tuple.  No field or amount validation happens here. -/
def procesar_transferencia (db : DBState)
    (username cuenta_origen cuenta_destino cantidad : JVal) : Bool × String × DBState :=
  match registrar_transaccion db username cuenta_origen cuenta_destino cantidad true with
  | some (tx_id, db1) =>
    (true, "Transferencia completada (ID: " ++ toString tx_id ++ ")", db1)
  | none => (false, "Error al procesar la transferencia", db)

/-! ## `server/server.py` — rate limiter, handlers, dispatcher

The in-memory `intentos_login` defaultdict is an association list with
Python-`==` keys and the default entry for absent keys; `datetime.now()` is
the `ahora` parameter (seconds).  Constants: `MAX_INTENTOS_LOGIN = 5`,
`TIEMPO_BLOQUEO = 900 s`, `VENTANA_INTENTOS = 300 s`. -/

structure RateEntry where
  intentos : Nat
  bloqueado_hasta : Option Nat
  ultimo_intento : Option Nat

abbrev RateMap := List (JVal × RateEntry)

def rateGet (m : RateMap) (k : JVal) : RateEntry :=
  ((m.filter (fun p => pyEq p.1 k)).head?).elim ⟨0, none, none⟩ (fun p => p.2)

def rateSet (m : RateMap) (k : JVal) (e : RateEntry) : RateMap :=
  if m.any (fun p => pyEq p.1 k) then
    m.map (fun p => if pyEq p.1 k then (p.1, e) else p)
  else m ++ [(k, e)]

/-- The window reset at the end of `_verificar_rate_limit_login`: the
counter clears when more than `VENTANA_INTENTOS` passed since the **last**
attempt. -/
def ventanaReset (e : RateEntry) (ahora : Nat) : RateEntry :=
  match e.ultimo_intento with
  | some u => if ahora - u > 300 then { e with intentos := 0 } else e
  | none => e

/-- Model of `_verificar_rate_limit_login` on one entry: `(entry', puede_intentar,
mensaje_error)`.  The reported minutes are
`int(tiempo_restante.total_seconds() / 60) + 1`. -/
def verificar_rate_limit_login (estado : RateEntry) (ahora : Nat) :
    RateEntry × Bool × String :=
  match estado.bloqueado_hasta with
  | some b =>
    if ahora < b then
      (estado, false,
       "Usuario bloqueado. Intenta en " ++ toString ((b - ahora) / 60 + 1) ++ " minuto(s)")
    else
      (ventanaReset ⟨0, none, estado.ultimo_intento⟩ ahora, true, "")
  | none => (ventanaReset estado ahora, true, "")

/-- Model of `_registrar_intento_login` on one entry. -/
def registrar_intento_login (estado : RateEntry) (ahora : Nat) (exitoso : Bool) : RateEntry :=
  if exitoso then ⟨0, none, some ahora⟩
  else
    let n := estado.intentos + 1
    if n ≥ 5 then ⟨n, some (ahora + 900), some ahora⟩
    else ⟨n, estado.bloqueado_hasta, some ahora⟩

/-- A response as written to the socket: `_enviar_ok` carries a `datos`
object (default empty), `_enviar_error` has none. -/
inductive Respuesta where
  | ok (mensaje : String) (datos : List (String × JVal))
  | err (mensaje : String)

/-- Model of `_validar_password` on an actual string. -/
def simboloCodes : List Nat :=
  [33, 64, 35, 36, 37, 94, 38, 42, 40, 41, 44, 46, 63, 34, 58, 123, 125, 124,
   60, 62, 95, 45, 43, 61, 91, 93, 92, 47, 126, 96]

def isPyWs (c : Char) : Bool := c.toNat == 32 || (9 ≤ c.toNat && c.toNat ≤ 13)

def validar_password_str (password : String) : Bool × String :=
  if password.length < 12 then
    (false, "La contraseña debe tener al menos 12 caracteres")
  else if password.data.all isPyWs then
    (false, "La contraseña no puede estar vacía")
  else if !(password.data.any (fun c => 65 ≤ c.toNat && c.toNat ≤ 90)) then
    (false, "Debe contener al menos una letra mayúscula (A-Z)")
  else if !(password.data.any (fun c => 97 ≤ c.toNat && c.toNat ≤ 122)) then
    (false, "Debe contener al menos una letra minúscula (a-z)")
  else if !(password.data.any (fun c => 48 ≤ c.toNat && c.toNat ≤ 57)) then
    (false, "Debe contener al menos un número (0-9)")
  else if !(password.data.any (fun c => simboloCodes.contains c.toNat)) then
    (false, "Debe contener al menos un carácter especial (!@#$%...)")
  else (true, "")

/-- Model of `_procesar_registro`.  `none` = an exception escaped the handler (the
worker then closes the connection without a response). -/
def procesar_registro (db : DBState) (datos : JVal) : Option Respuesta × DBState :=
  match jget datos "username", jget datos "password" with
  | some username?, some password? =>
    if !(truthyOpt username?) || !(truthyOpt password?) then
      (some (Respuesta.err "Faltan datos de registro"), db)
    else
      match username?, password? with
      | some username, some password =>
        match password with
        | JVal.jstr p =>
          let (ok, errMsg) := validar_password_str p
          if !ok then (some (Respuesta.err errMsg), db)
          else
            match Autenticacion.registrar db username p with
            | none => (none, db)
            | some (true, msg, db1) => (some (Respuesta.ok msg []), db1)
            | some (false, msg, db1) => (some (Respuesta.err msg), db1)
        | _ =>
          match pyLen password with
          | some n =>
            if n < 12 then
              (some (Respuesta.err "La contraseña debe tener al menos 12 caracteres"), db)
            else (none, db)
          | none => (none, db)
      | _, _ => (some (Respuesta.err "Faltan datos de registro"), db)
  | _, _ => (none, db)

/-- Model of `_procesar_login` (the later definition in the class body, the one
Python keeps): rate-limit gate, then credential check, then attempt
bookkeeping and the suffixed failure message. -/
def procesar_login (db : DBState) (rate : RateMap) (ahora : Nat) (datos : JVal) :
    Option Respuesta × RateMap :=
  match jget datos "username", jget datos "password" with
  | some username?, some password? =>
    if !(truthyOpt username?) || !(truthyOpt password?) then
      (some (Respuesta.err "Faltan credenciales"), rate)
    else
      match username?, password? with
      | some username, some password =>
        if !(hashable username) then (none, rate)
        else
          let (estado1, puede, msgError) :=
            verificar_rate_limit_login (rateGet rate username) ahora
          let rate1 := rateSet rate username estado1
          if !puede then (some (Respuesta.err msgError), rate1)
          else
            match Autenticacion.login db username password with
            | none => (none, rate1)
            | some (exito, msg) =>
              let estado2 := registrar_intento_login (rateGet rate1 username) ahora exito
              let rate2 := rateSet rate1 username estado2
              if exito then (some (Respuesta.ok msg []), rate2)
              else
                let restantes := 5 - estado2.intentos
                if restantes > 0 then
                  (some (Respuesta.err (msg ++ ". Intentos restantes: " ++ toString restantes)),
                   rate2)
                else
                  (some (Respuesta.err (msg ++ ". Usuario bloqueado por 15 minutos")), rate2)
      | _, _ => (some (Respuesta.err "Faltan credenciales"), rate)
  | _, _ => (none, rate)

/-- Model of `_procesar_transaccion`: truthiness check of the four fields, then the
transaction module. -/
def procesar_transaccion (db : DBState) (datos : JVal) : Option Respuesta × DBState :=
  match jget datos "username", jget datos "cuenta_origen",
        jget datos "cuenta_destino", jget datos "cantidad" with
  | some u?, some o?, some d?, some c? =>
    if !(truthyOpt u?) || !(truthyOpt o?) || !(truthyOpt d?) || !(truthyOpt c?) then
      (some (Respuesta.err "Faltan datos de la transaccion"), db)
    else
      match u?, o?, d?, c? with
      | some u, some o, some d, some c =>
        match procesar_transferencia db u o d c with
        | (true, msg, db1) => (some (Respuesta.ok msg []), db1)
        | (false, msg, db1) => (some (Respuesta.err msg), db1)
      | _, _, _, _ => (some (Respuesta.err "Faltan datos de la transaccion"), db)
  | _, _, _, _ => (none, db)

structure ServerState where
  db : DBState
  rate : RateMap

/-- Model of `_manejar_cliente` for one connection carrying `datos` bytes: unpack,
verify MAC + admit nonce, parse the payload, dispatch on `tipo`.  The first
component is the response written back (`none` when the worker closes the
socket without responding). -/
def manejar_cliente (clave : List Nat) (st : ServerState) (ahora : Nat)
    (datos : List Nat) : Option Respuesta × ServerState :=
  if datos.isEmpty then (none, st)
  else
    match desempaquetar datos with
    | none => (some (Respuesta.err "Mensaje malformado"), st)
    | some (mensaje_bytes, mac, nonce) =>
      match verificar_mensaje_completo st.db clave mensaje_bytes nonce mac ahora with
      | (Except.error e, db1) => (some (Respuesta.err e.msg), { st with db := db1 })
      | (Except.ok _, db1) =>
        let st1 : ServerState := { st with db := db1 }
        match desde_json mensaje_bytes with
        | none => (none, st1)
        | some mensaje =>
          if pyEq mensaje.tipo (JVal.jstr "registro") then
            let (r, db2) := procesar_registro st1.db mensaje.datos
            (r, { st1 with db := db2 })
          else if pyEq mensaje.tipo (JVal.jstr "login") then
            let (r, rate2) := procesar_login st1.db st1.rate ahora mensaje.datos
            (r, { st1 with rate := rate2 })
          else if pyEq mensaje.tipo (JVal.jstr "transaccion") then
            let (r, db2) := procesar_transaccion st1.db mensaje.datos
            (r, { st1 with db := db2 })
          else (some (Respuesta.err "Tipo de mensaje no soportado"), st1)

/-! ## Parse/render roundtrip for the outer envelope -/

/-- Characters that render into JSON strings unescaped. -/
def jsonPlainChar (c : Char) : Bool :=
  (32 ≤ c.toNat && c.toNat < 127) && !(c.toNat == 34) && !(c.toNat == 92)

theorem escapeChar_plain (c : Char) (h : jsonPlainChar c = true) : escapeChar c = [c] := by
  simp only [jsonPlainChar, Bool.and_eq_true, Bool.not_eq_true', beq_eq_false_iff_ne,
    decide_eq_true_eq] at h
  obtain ⟨⟨⟨h1, h2⟩, h3⟩, h4⟩ := h
  unfold escapeChar
  rw [if_neg (by simpa using h3), if_neg (by simpa using h4),
      if_neg (by simp; omega), if_neg (by simp; omega), if_neg (by simp; omega),
      if_neg (by simp; omega), if_neg (by simp; omega), if_neg (by omega),
      if_pos (by omega)]

theorem flatten_map_single {α : Type} (l : List α) :
    (l.map (fun c => [c])).flatten = l := by
  induction l with
  | nil => rfl
  | cons x xt ih => simp [ih]

theorem renderString_plain (s : String) (h : ∀ c ∈ s.data, jsonPlainChar c = true) :
    renderString s = quoteChar :: s.data ++ [quoteChar] := by
  unfold renderString
  congr 1
  have hmap : s.data.map escapeChar = s.data.map (fun c => [c]) :=
    List.map_congr_left (fun c hc => escapeChar_plain c (h c hc))
  rw [hmap, flatten_map_single]

theorem parseStringBodyF_plain (xs rest : List Char) (f : Nat) (hf : xs.length < f)
    (h : ∀ c ∈ xs, jsonPlainChar c = true) :
    parseStringBodyF f (xs ++ quoteChar :: rest) = some (xs, rest) := by
  induction xs generalizing f with
  | nil =>
    match f, hf with
    | f + 1, _ =>
      have hstep : parseStringStep (quoteChar :: rest) = StrStep.done rest := by
        simp only [parseStringStep]
        rw [if_pos (by simp [quoteChar])]
      simp [parseStringBodyF, hstep]
  | cons x xt ih =>
    match f, hf with
    | f + 1, hf =>
      have hx := h x (by simp)
      simp only [jsonPlainChar, Bool.and_eq_true, Bool.not_eq_true', beq_eq_false_iff_ne,
        decide_eq_true_eq] at hx
      obtain ⟨⟨⟨h1, h2⟩, h3⟩, h4⟩ := hx
      have hstep : parseStringStep (x :: (xt ++ quoteChar :: rest)) =
          StrStep.chr x (xt ++ quoteChar :: rest) := by
        simp only [parseStringStep]
        rw [if_neg (by simpa using h3), if_neg (by simpa using h4), if_neg (by omega)]
      rw [List.cons_append]
      show (match parseStringStep (x :: (xt ++ quoteChar :: rest)) with
        | StrStep.done r => some (([] : List Char), r)
        | StrStep.chr c r => (parseStringBodyF f r).map (fun p => (c :: p.1, p.2))
        | StrStep.bad => none) = some (x :: xt, rest)
      rw [hstep]
      show (parseStringBodyF f (xt ++ quoteChar :: rest)).map (fun p => (x :: p.1, p.2)) =
        some (x :: xt, rest)
      rw [ih f (by simp at hf; omega) (fun c hc => h c (by simp [hc]))]
      rfl

theorem parseStringBody_plain (xs rest : List Char)
    (h : ∀ c ∈ xs, jsonPlainChar c = true) :
    parseStringBody (xs ++ quoteChar :: rest) = some (xs, rest) := by
  unfold parseStringBody
  exact parseStringBodyF_plain xs rest _ (by simp; omega) h

theorem skipWs_cons_of_not_ws (c : Char) (r : List Char) (h : isJsonWs c = false) :
    skipWs (c :: r) = c :: r := by
  simp [skipWs, List.dropWhile_cons, h]

theorem skipWs_space (r : List Char) : skipWs (' ' :: r) = skipWs r := by
  simp [skipWs, List.dropWhile_cons, isJsonWs]

theorem string_mk_data (s : String) : String.mk s.data = s := rfl

theorem renderString_append (s : String) (X : List Char)
    (h : ∀ c ∈ s.data, jsonPlainChar c = true) :
    renderString s ++ X = quoteChar :: (s.data ++ quoteChar :: X) := by
  rw [renderString_plain s h]
  simp

theorem parseJVal_quote (f : Nat) (cs : List Char) :
    parseJVal (f + 1) (quoteChar :: cs) =
      (parseStringBody cs).map (fun p => (JVal.jstr (String.mk p.1), p.2)) := by
  simp only [parseJVal]
  rw [skipWs_cons_of_not_ws quoteChar cs (by decide)]
  simp only []
  rw [if_pos (by decide)]

/-- Parsing a rendered plain string value after the `": "` separator. -/
theorem parseJVal_str (f : Nat) (v : String) (rest : List Char)
    (hv : ∀ c ∈ v.data, jsonPlainChar c = true) :
    parseJVal (f + 1) (' ' :: (renderString v ++ rest)) = some (JVal.jstr v, rest) := by
  have hq := renderString_append v rest hv
  simp only [parseJVal]
  rw [skipWs_space, hq, skipWs_cons_of_not_ws quoteChar _ (by decide)]
  simp only []
  rw [if_pos (by decide), parseStringBody_plain v.data rest hv]
  simp [string_mk_data]

theorem parseMembers_space (f : Nat) (cs : List Char) (acc : List (String × JVal)) :
    parseMembers (f + 1) (' ' :: cs) acc = parseMembers (f + 1) cs acc := by
  simp only [parseMembers, skipWs_space]

/-- One `"key": "value"` member of the envelope object. -/
theorem parseMembers_step (f : Nat) (k v : String) (acc : List (String × JVal))
    (tail : List Char)
    (hk : ∀ c ∈ k.data, jsonPlainChar c = true)
    (hv : ∀ c ∈ v.data, jsonPlainChar c = true) :
    parseMembers (f + 2) (renderString k ++ ':' :: ' ' :: (renderString v ++ tail)) acc =
      match skipWs tail with
      | c3 :: rest5 =>
        if c3 == ',' then parseMembers (f + 1) rest5 (acc ++ [(k, JVal.jstr v)])
        else if c3 == cbraceChar then some (JVal.jobj (acc ++ [(k, JVal.jstr v)]), rest5)
        else none
      | [] => none := by
  have hq := renderString_append k (':' :: ' ' :: (renderString v ++ tail)) hk
  simp only [parseMembers]
  rw [hq, skipWs_cons_of_not_ws quoteChar _ (by decide)]
  simp only []
  rw [if_pos (by decide), parseStringBody_plain k.data _ hk]
  simp only []
  rw [skipWs_cons_of_not_ws ':' _ (by decide)]
  simp only []
  rw [if_pos (by decide), parseJVal_str f v tail hv]

theorem renderString_length_ge (s : String) : 2 ≤ (renderString s).length := by
  simp [renderString]

theorem renderObjBody_cons2 (k : String) (v : JVal) (p : String × JVal)
    (rest : List (String × JVal)) :
    renderObjBody ((k, v) :: p :: rest) =
      renderString k ++ ':' :: ' ' :: renderJVal v ++ ',' :: ' ' :: renderObjBody (p :: rest) := by
  simp only [renderObjBody]

theorem renderObjBody_length_ge (l : List (String × JVal)) :
    l.length ≤ (renderObjBody l).length + 1 := by
  induction l with
  | nil => simp
  | cons x t ih =>
    cases t with
    | nil => simp
    | cons y r =>
      obtain ⟨k, v⟩ := x
      rw [renderObjBody_cons2]
      simp only [List.length_append, List.length_cons] at ih ⊢
      omega

/-- The member chain of a rendered all-strings object parses back to the
members in order. -/
theorem parseMembers_render (ps : List (String × String)) (acc : List (String × JVal))
    (f : Nat) (hf : ps.length < f) (hne : ps ≠ [])
    (hps : ∀ p ∈ ps, (∀ c ∈ p.1.data, jsonPlainChar c = true) ∧
                     (∀ c ∈ p.2.data, jsonPlainChar c = true)) :
    parseMembers f (renderObjBody (ps.map (fun p => (p.1, JVal.jstr p.2))) ++ [cbraceChar]) acc
      = some (JVal.jobj (acc ++ ps.map (fun p => (p.1, JVal.jstr p.2))), []) := by
  induction ps generalizing acc f with
  | nil => exact absurd rfl hne
  | cons x t ih =>
    obtain ⟨k, v⟩ := x
    have hx := hps (k, v) (by simp)
    cases t with
    | nil =>
      match f, hf with
      | g + 2, _ =>
        have hbody : renderObjBody ([(k, v)].map (fun p => (p.1, JVal.jstr p.2))) ++ [cbraceChar]
            = renderString k ++ ':' :: ' ' :: (renderString v ++ [cbraceChar]) := by
          simp [renderObjBody, renderJVal]
        rw [hbody, parseMembers_step g k v acc [cbraceChar] hx.1 hx.2]
        rw [skipWs_cons_of_not_ws cbraceChar [] (by decide)]
        simp only []
        rw [if_neg (by decide), if_pos (by decide)]
        simp
    | cons y r =>
      match f, hf with
      | g + 2, hf =>
        have hy := hps y (by simp)
        have hbody : renderObjBody (((k, v) :: y :: r).map (fun p => (p.1, JVal.jstr p.2)))
              ++ [cbraceChar]
            = renderString k ++ ':' :: ' ' ::
              (renderString v ++
                (',' :: ' ' :: (renderObjBody ((y :: r).map (fun p => (p.1, JVal.jstr p.2)))
                  ++ [cbraceChar]))) := by
          simp only [List.map_cons]
          rw [renderObjBody_cons2]
          simp [renderJVal]
        rw [hbody, parseMembers_step g k v acc _ hx.1 hx.2]
        rw [skipWs_cons_of_not_ws ',' _ (by decide)]
        simp only []
        rw [if_pos (by decide)]
        rw [parseMembers_space g]
        rw [ih (acc ++ [(k, JVal.jstr v)]) (g + 1) (by simp at hf ⊢; omega) (by simp)
            (fun p hp => hps p (by simp [hp]))]
        simp

theorem renderObjBody_head (k : String) (v : JVal) (t : List (String × JVal)) (X : List Char) :
    ∃ tl, renderObjBody ((k, v) :: t) ++ X = quoteChar :: tl := by
  cases t with
  | nil =>
    refine ⟨(k.data.map escapeChar).flatten ++ quoteChar :: ':' :: ' ' :: (renderJVal v ++ X), ?_⟩
    simp [renderObjBody, renderString]
  | cons y r =>
    refine ⟨(k.data.map escapeChar).flatten ++ quoteChar :: ':' :: ' ' ::
      (renderJVal v ++ ',' :: ' ' :: (renderObjBody (y :: r) ++ X)), ?_⟩
    rw [renderObjBody_cons2]
    simp [renderString]

/-- A rendered nonempty all-strings object parses back exactly. -/
theorem parseJVal_strObj (ps : List (String × String)) (hne : ps ≠ [])
    (hps : ∀ p ∈ ps, (∀ c ∈ p.1.data, jsonPlainChar c = true) ∧
                     (∀ c ∈ p.2.data, jsonPlainChar c = true))
    (f : Nat) (hf : ps.length + 1 < f) :
    parseJVal f (renderJVal (JVal.jobj (ps.map (fun p => (p.1, JVal.jstr p.2))))) =
      some (JVal.jobj (ps.map (fun p => (p.1, JVal.jstr p.2))), []) := by
  match f, hf with
  | g + 1, hf =>
    have hrender : renderJVal (JVal.jobj (ps.map (fun p => (p.1, JVal.jstr p.2)))) =
        obraceChar :: (renderObjBody (ps.map (fun p => (p.1, JVal.jstr p.2))) ++ [cbraceChar]) := by
      simp [renderJVal]
    rw [hrender]
    simp only [parseJVal]
    rw [skipWs_cons_of_not_ws obraceChar _ (by decide)]
    simp only []
    rw [if_neg (by decide), if_neg (by decide), if_neg (by decide), if_neg (by decide),
        if_pos (by decide)]
    match hps2 : ps, hne with
    | (k, v) :: t, _ =>
      obtain ⟨tl, htl⟩ := renderObjBody_head k (JVal.jstr v)
        (t.map (fun p => (p.1, JVal.jstr p.2))) [cbraceChar]
      simp only [List.map_cons] at htl ⊢
      rw [htl, skipWs_cons_of_not_ws quoteChar _ (by decide)]
      simp only []
      rw [if_neg (by decide), ← htl]
      have := parseMembers_render ((k, v) :: t) [] g (by subst hps2; simpa using hf)
        (by simp) (by subst hps2; exact hps)
      simp only [List.map_cons] at this
      rw [this]
      simp

theorem jsonLoads_strObj (ps : List (String × String)) (hne : ps ≠ [])
    (hps : ∀ p ∈ ps, (∀ c ∈ p.1.data, jsonPlainChar c = true) ∧
                     (∀ c ∈ p.2.data, jsonPlainChar c = true)) :
    jsonLoads (renderJVal (JVal.jobj (ps.map (fun p => (p.1, JVal.jstr p.2))))) =
      some (JVal.jobj (ps.map (fun p => (p.1, JVal.jstr p.2)))) := by
  unfold jsonLoads
  have hb := renderObjBody_length_ge (ps.map (fun p => (p.1, JVal.jstr p.2)))
  have hlen : ps.length + 1 <
      (renderJVal (JVal.jobj (ps.map (fun p => (p.1, JVal.jstr p.2))))).length + 1 := by
    have : renderJVal (JVal.jobj (ps.map (fun p => (p.1, JVal.jstr p.2)))) =
        obraceChar :: renderObjBody (ps.map (fun p => (p.1, JVal.jstr p.2))) ++ [cbraceChar] := by
      simp [renderJVal]
    rw [this]
    simp only [List.length_map] at hb
    simp [List.length_append]
    omega
  rw [parseJVal_strObj ps hne hps _ hlen]
  simp [skipWs]

theorem renderString_ascii (s : String) (h : ∀ c ∈ s.data, jsonPlainChar c = true) :
    ∀ c ∈ renderString s, c.toNat < 128 := by
  rw [renderString_plain s h]
  intro c hc
  simp only [List.cons_append, List.mem_cons, List.mem_append, List.mem_singleton,
    List.not_mem_nil, or_false] at hc
  rcases hc with rfl | hc | rfl
  · decide
  · have := h c hc
    simp only [jsonPlainChar, Bool.and_eq_true, decide_eq_true_eq] at this
    omega
  · decide

theorem renderObjBody_strings_ascii (ps : List (String × String))
    (hps : ∀ p ∈ ps, (∀ c ∈ p.1.data, jsonPlainChar c = true) ∧
                     (∀ c ∈ p.2.data, jsonPlainChar c = true)) :
    ∀ c ∈ renderObjBody (ps.map (fun p => (p.1, JVal.jstr p.2))), c.toNat < 128 := by
  induction ps with
  | nil => intro c hc; simp [renderObjBody] at hc
  | cons x t ih =>
    have hx := hps x (by simp)
    cases t with
    | nil =>
      intro c hc
      simp only [List.map_cons, List.map_nil, renderObjBody, renderJVal] at hc
      rcases List.mem_append.mp hc with h1 | h2
      · exact renderString_ascii x.1 hx.1 c h1
      rcases List.mem_cons.mp h2 with rfl | h2
      · decide
      rcases List.mem_cons.mp h2 with rfl | h2
      · decide
      exact renderString_ascii x.2 hx.2 c h2
    | cons y r =>
      intro c hc
      rw [List.map_cons, List.map_cons, renderObjBody_cons2] at hc
      simp only [renderJVal] at hc
      rcases List.mem_append.mp hc with h1 | h2
      · rcases List.mem_append.mp h1 with h5 | h6
        · exact renderString_ascii x.1 hx.1 c h5
        rcases List.mem_cons.mp h6 with rfl | h6
        · decide
        rcases List.mem_cons.mp h6 with rfl | h6
        · decide
        exact renderString_ascii x.2 hx.2 c h6
      rcases List.mem_cons.mp h2 with rfl | h2
      · decide
      rcases List.mem_cons.mp h2 with rfl | h2
      · decide
      exact ih (fun p hp => hps p (by simp [hp])) c (by rw [List.map_cons]; exact h2)

theorem render_strObj_ascii (ps : List (String × String))
    (hps : ∀ p ∈ ps, (∀ c ∈ p.1.data, jsonPlainChar c = true) ∧
                     (∀ c ∈ p.2.data, jsonPlainChar c = true)) :
    ∀ c ∈ renderJVal (JVal.jobj (ps.map (fun p => (p.1, JVal.jstr p.2)))), c.toNat < 128 := by
  intro c hc
  have : renderJVal (JVal.jobj (ps.map (fun p => (p.1, JVal.jstr p.2)))) =
      obraceChar :: renderObjBody (ps.map (fun p => (p.1, JVal.jstr p.2))) ++ [cbraceChar] := by
    simp [renderJVal]
  rw [this] at hc
  simp only [List.cons_append, List.mem_cons, List.mem_append, List.mem_singleton,
    List.not_mem_nil, or_false] at hc
  rcases hc with rfl | hc | rfl
  · decide
  · exact renderObjBody_strings_ascii ps hps c hc
  · decide

theorem b64encode_plain (b : List Nat) (hb : bytesOk b) :
    ∀ c ∈ b64encode b, jsonPlainChar c = true := by
  rw [b64encode_eq_sextets]
  intro c hc
  rcases List.mem_append.mp hc with h | h
  · rcases List.mem_map.mp h with ⟨v, hv, rfl⟩
    have hlt := b64Sextets_lt b hb v hv
    have : ∀ w, w < 64 → jsonPlainChar (valToChar w) = true := by decide
    exact this v hlt
  · rw [List.eq_of_mem_replicate h]; decide

theorem string_data_mk (l : List Char) : (String.mk l).data = l := rfl

/-- The outer envelope round-trips for byte fields of every length: no
width check happens anywhere in `desempaquetar`. -/
theorem desempaquetar_empaquetarRaw (m mac n : List Nat)
    (hm : bytesOk m) (hmac : bytesOk mac) (hn : bytesOk n) :
    desempaquetar (empaquetarRaw m mac n) = some (m, mac, n) := by
  have hplain : ∀ p ∈ [("mensaje", String.mk (b64encode m)),
      ("mac", String.mk (b64encode mac)), ("nonce", String.mk (b64encode n))],
      (∀ c ∈ p.1.data, jsonPlainChar c = true) ∧ (∀ c ∈ p.2.data, jsonPlainChar c = true) := by
    intro p hp
    simp only [List.mem_cons, List.not_mem_nil, or_false] at hp
    rcases hp with rfl | rfl | rfl
    · exact ⟨show ∀ c ∈ "mensaje".data, jsonPlainChar c = true by decide,
        by rw [string_data_mk]; exact b64encode_plain m hm⟩
    · exact ⟨show ∀ c ∈ "mac".data, jsonPlainChar c = true by decide,
        by rw [string_data_mk]; exact b64encode_plain mac hmac⟩
    · exact ⟨show ∀ c ∈ "nonce".data, jsonPlainChar c = true by decide,
        by rw [string_data_mk]; exact b64encode_plain n hn⟩
  have hobj : JVal.jobj [("mensaje", JVal.jstr (String.mk (b64encode m))),
        ("mac", JVal.jstr (String.mk (b64encode mac))),
        ("nonce", JVal.jstr (String.mk (b64encode n)))] =
      JVal.jobj ([("mensaje", String.mk (b64encode m)), ("mac", String.mk (b64encode mac)),
        ("nonce", String.mk (b64encode n))].map (fun p => (p.1, JVal.jstr p.2))) := rfl
  unfold empaquetarRaw desempaquetar jsonDumps
  rw [hobj]
  rw [utf8Decode_encode_ascii _ (render_strObj_ascii _ hplain)]
  simp only []
  rw [jsonLoads_strObj _ (by simp) hplain]
  simp only [List.map_cons, List.map_nil]
  have h1 : lookupLast [("mensaje", JVal.jstr (String.mk (b64encode m))),
      ("mac", JVal.jstr (String.mk (b64encode mac))),
      ("nonce", JVal.jstr (String.mk (b64encode n)))] "mensaje" =
      some (JVal.jstr (String.mk (b64encode m))) := by
    simp [lookupLast, List.filter]
  have h2 : lookupLast [("mensaje", JVal.jstr (String.mk (b64encode m))),
      ("mac", JVal.jstr (String.mk (b64encode mac))),
      ("nonce", JVal.jstr (String.mk (b64encode n)))] "mac" =
      some (JVal.jstr (String.mk (b64encode mac))) := by
    simp [lookupLast, List.filter]
  have h3 : lookupLast [("mensaje", JVal.jstr (String.mk (b64encode m))),
      ("mac", JVal.jstr (String.mk (b64encode mac))),
      ("nonce", JVal.jstr (String.mk (b64encode n)))] "nonce" =
      some (JVal.jstr (String.mk (b64encode n))) := by
    simp [lookupLast, List.filter]
  rw [h1, h2, h3]
  simp only [string_data_mk]
  rw [b64decode_encode m hm, b64decode_encode mac hmac, b64decode_encode n hn]

/-! ## Byte-range facts about the primitives -/

theorem wordBytesBE_lt (w : Nat) : ∀ x ∈ wordBytesBE w, x < 256 := by
  intro x hx
  simp only [wordBytesBE, List.mem_cons, List.not_mem_nil, or_false] at hx
  rcases hx with rfl | rfl | rfl | rfl <;> omega

theorem sha256_bytesOk (msg : List Nat) : bytesOk (sha256 msg) := by
  intro x hx
  unfold sha256 at hx
  rcases List.mem_flatten.mp hx with ⟨l, hl, hxl⟩
  rcases List.mem_map.mp hl with ⟨w, _, rfl⟩
  exact wordBytesBE_lt w x hxl

theorem hmacSha256_bytesOk (key msg : List Nat) : bytesOk (hmacSha256 key msg) :=
  sha256_bytesOk _

theorem calcular_mac_bytesOk (clave mensaje nonce : List Nat) :
    bytesOk (calcular_mac clave mensaje nonce) :=
  hmacSha256_bytesOk _ _

/-! ## Claim theorems -/

/-- Claim C9 (confirmed).  For every key and typed request, unpacking the
packed envelope round-trips: `unpack(pack(k, m))` yields exactly
`(serialize(m), mac(k, serialize(m), nonce), nonce)` for the drawn nonce,
and `verify_mac` on the unpacked triple returns true. -/
theorem C9_envelope_roundtrip (clave nonce : List Nat) (m : Mensaje)
    (hn : bytesOk nonce) :
    desempaquetar (m.empaquetar clave nonce) = some (m.serializar clave nonce) ∧
    verificar_mac clave (m.serializar clave nonce).1 nonce
      (m.serializar clave nonce).2.1 = true := by
  constructor
  · show desempaquetar (empaquetarRaw _ _ _) = _
    exact desempaquetar_empaquetarRaw _ _ _ (utf8Encode_bytesOk _)
      (calcular_mac_bytesOk _ _ _) hn
  · have h1 : (m.serializar clave nonce).1 =
        utf8Encode (jsonDumps (JVal.jobj [("tipo", m.tipo), ("datos", m.datos)])) := rfl
    have h2 : (m.serializar clave nonce).2.1 =
        calcular_mac clave
          (utf8Encode (jsonDumps (JVal.jobj [("tipo", m.tipo), ("datos", m.datos)]))) nonce := rfl
    rw [h1, h2]
    simp [verificar_mac, compare_digest]

theorem C9_envelope_roundtrip_witness :
    desempaquetar (Mensaje.empaquetar ⟨JVal.jstr "login", JVal.jobj []⟩ [7] [1, 2]) =
      some (Mensaje.serializar ⟨JVal.jstr "login", JVal.jobj []⟩ [7] [1, 2]) :=
  (C9_envelope_roundtrip [7] [1, 2] ⟨JVal.jstr "login", JVal.jobj []⟩ (by decide)).1

/-- Claim C3 (confirmed).  MAC verification runs before nonce admission: an
invalid MAC is rejected as `IntegrityFailure` with the nonce table
untouched, and a later MAC-valid request carrying the same nonce is still
admitted. -/
theorem C3_mac_before_nonce (db : DBState) (clave mensaje nonce mac : List Nat)
    (ahora : Nat) (h : verificar_mac clave mensaje nonce mac = false) :
    verificar_mensaje_completo db clave mensaje nonce mac ahora =
      (Except.error MensajeInvalido.macInvalido, db) ∧
    MensajeInvalido.macInvalido.msg = "MAC inválido - Integridad comprometida" ∧
    (db.nonces.any (fun r => r.valor == nonce) = false →
      ∀ clave2 mensaje2 mac2 t2,
        verificar_mac clave2 mensaje2 nonce mac2 = true →
        (verificar_mensaje_completo db clave2 mensaje2 nonce mac2 t2).1 = Except.ok true) := by
  refine ⟨?_, rfl, ?_⟩
  · unfold verificar_mensaje_completo
    rw [h]
    rfl
  · intro hfresh clave2 mensaje2 mac2 t2 hok
    unfold verificar_mensaje_completo
    rw [hok]
    simp only [Bool.not_true, Bool.false_eq_true, if_false]
    unfold validar_nonce
    rw [hfresh]
    rfl

set_option maxRecDepth 100000 in
theorem C3_mac_before_nonce_witness :
    verificar_mensaje_completo ⟨[], [], []⟩ [] [] [] [] 0 =
      (Except.error MensajeInvalido.macInvalido, (⟨[], [], []⟩ : DBState)) :=
  (C3_mac_before_nonce ⟨[], [], []⟩ [] [] [] [] 0 (by decide)).1

/-! ## Nonce single-use machinery (C4) -/

/-- Run a sequence of `validar_nonce` admissions (no sweep in between). -/
def runAdmits (db : DBState) : List (List Nat × Nat) → DBState
  | [] => db
  | (v, t) :: rest => runAdmits (validar_nonce db v t 5).2 rest

/-- How many calls of the sequence admitted the value `N`. -/
def countAdmitted (db : DBState) (N : List Nat) : List (List Nat × Nat) → Nat
  | [] => 0
  | (v, t) :: rest =>
    (if v == N && (validar_nonce db v t 5).1 then 1 else 0) +
    countAdmitted (validar_nonce db v t 5).2 N rest

theorem validar_nonce_present (db : DBState) (N : List Nat) (t : Nat)
    (h : db.nonces.any (fun r => r.valor == N) = true) :
    validar_nonce db N t 5 = (false, db) := by
  unfold validar_nonce
  rw [if_pos h]

theorem validar_nonce_preserves (db : DBState) (N v : List Nat) (t : Nat)
    (h : db.nonces.any (fun r => r.valor == N) = true) :
    ((validar_nonce db v t 5).2).nonces.any (fun r => r.valor == N) = true := by
  unfold validar_nonce
  split
  · exact h
  · simp only [List.any_append, h, Bool.true_or]

theorem validar_nonce_inserts (db : DBState) (N : List Nat) (t : Nat)
    (h : (validar_nonce db N t 5).1 = true) :
    ((validar_nonce db N t 5).2).nonces.any (fun r => r.valor == N) = true := by
  unfold validar_nonce at h ⊢
  split at h
  · exact absurd h (by simp)
  · rename_i hdup
    rw [if_neg (by simpa using hdup)]
    simp

theorem validar_nonce_other (db : DBState) (N v : List Nat) (t : Nat)
    (h : (v == N) = false) :
    ((validar_nonce db v t 5).2).nonces.any (fun r => r.valor == N) =
      db.nonces.any (fun r => r.valor == N) := by
  unfold validar_nonce
  split
  · rfl
  · simp only [List.any_append, List.any_cons, List.any_nil, h, Bool.or_false]

theorem runAdmits_preserves (calls : List (List Nat × Nat)) (db : DBState) (N : List Nat)
    (h : db.nonces.any (fun r => r.valor == N) = true) :
    ((runAdmits db calls).nonces.any (fun r => r.valor == N)) = true := by
  induction calls generalizing db with
  | nil => exact h
  | cons x rest ih =>
    obtain ⟨v, t⟩ := x
    exact ih _ (validar_nonce_preserves db N v t h)

theorem countAdmitted_le (N : List Nat) (calls : List (List Nat × Nat)) (db : DBState) :
    countAdmitted db N calls ≤
      (if db.nonces.any (fun r => r.valor == N) then 0 else 1) := by
  induction calls generalizing db with
  | nil => simp [countAdmitted]
  | cons x rest ih =>
    obtain ⟨v, t⟩ := x
    show (if v == N && (validar_nonce db v t 5).1 then 1 else 0) +
      countAdmitted (validar_nonce db v t 5).2 N rest ≤ _
    by_cases hv : (v == N) = true
    · have hvN : v = N := by simpa using hv
      rw [hvN]
      by_cases hp : db.nonces.any (fun r => r.valor == N) = true
      · have heq := validar_nonce_present db N t hp
        have hrec := ih (validar_nonce db N t 5).2
        rw [heq] at hrec ⊢
        simp only [hp, if_true] at hrec ⊢
        simpa using hrec
      · have hp' : db.nonces.any (fun r => r.valor == N) = false := by
          simpa using hp
        have hin : (validar_nonce db N t 5).1 = true := by
          unfold validar_nonce
          rw [if_neg (by simp [hp'])]
        have hrec := ih (validar_nonce db N t 5).2
        rw [validar_nonce_inserts db N t hin] at hrec
        simp only [if_true] at hrec
        simp only [hp', Bool.false_eq_true, if_false]
        have hcond : (N == N && (validar_nonce db N t 5).1) = true := by simp [hin]
        rw [if_pos hcond]
        omega
    · have hv' : (v == N) = false := by simpa using hv
      have hrec := ih (validar_nonce db v t 5).2
      rw [validar_nonce_other db N v t hv'] at hrec
      simp only [hv', Bool.false_and, Bool.false_eq_true, if_false, Nat.zero_add]
      exact hrec

/-- Claim C4 (confirmed).  In any sweep-free sequence of admissions a nonce
value is admitted at most once; once present it stays non-admissible (and
the duplicate path leaves the table unchanged); after a sweep that removes
its expired record the same value is admissible again. -/
theorem C4_nonce_single_use (db : DBState) (N : List Nat)
    (calls : List (List Nat × Nat)) (T t2 t3 : Nat) :
    countAdmitted db N calls ≤ 1 ∧
    (db.nonces.any (fun r => r.valor == N) = true →
      validar_nonce db N t2 5 = (false, db) ∧
      (validar_nonce (runAdmits db calls) N t2 5).1 = false) ∧
    ((∀ r ∈ db.nonces, r.valor = N → r.expira < T) →
      (validar_nonce (limpiar_nonces_expirados db T).2 N t3 5).1 = true) := by
  refine ⟨?_, fun h => ⟨validar_nonce_present db N t2 h, ?_⟩, fun h => ?_⟩
  · have := countAdmitted_le N calls db
    split at this <;> omega
  · rw [validar_nonce_present _ N t2 (runAdmits_preserves calls db N h)]
  · have hgone : ((limpiar_nonces_expirados db T).2).nonces.any
        (fun r => r.valor == N) = false := by
      simp only [limpiar_nonces_expirados]
      rw [Bool.eq_false_iff]
      intro hany
      rcases List.any_eq_true.mp hany with ⟨r, hr, hrN⟩
      rcases List.mem_filter.mp hr with ⟨hrdb, hkeep⟩
      have hvN : r.valor = N := by simpa using hrN
      have := h r hrdb hvN
      simp only [Bool.not_eq_true', decide_eq_false_iff_not, Nat.not_lt] at hkeep
      omega
    unfold validar_nonce
    rw [if_neg (by simp [hgone])]

theorem C4_nonce_single_use_witness :
    countAdmitted ⟨[], [⟨[7], 10⟩], []⟩ [7] [([7], 0)] ≤ 1 ∧
    validar_nonce ⟨[], [⟨[7], 10⟩], []⟩ [7] 0 5 = (false, ⟨[], [⟨[7], 10⟩], []⟩) ∧
    (validar_nonce (limpiar_nonces_expirados ⟨[], [⟨[7], 10⟩], []⟩ 11).2 [7] 0 5).1 = true :=
  ⟨(C4_nonce_single_use ⟨[], [⟨[7], 10⟩], []⟩ [7] [([7], 0)] 11 0 0).1,
   ((C4_nonce_single_use ⟨[], [⟨[7], 10⟩], []⟩ [7] [([7], 0)] 11 0 0).2.1 (by decide)).1,
   (C4_nonce_single_use ⟨[], [⟨[7], 10⟩], []⟩ [7] [([7], 0)] 11 0 0).2.2 (by decide)⟩

/-! ## Rate limiter and login claims -/

theorem verificar_locked (estado : RateEntry) (ahora u : Nat)
    (hb : estado.bloqueado_hasta = some u) (hlt : ahora < u) :
    verificar_rate_limit_login estado ahora =
      (estado, false, "Usuario bloqueado. Intenta en " ++
        toString ((u - ahora) / 60 + 1) ++ " minuto(s)") := by
  unfold verificar_rate_limit_login
  rw [hb]
  simp only []
  rw [if_pos hlt]

theorem procesar_login_locked (db : DBState) (rate : RateMap) (ahora u : Nat)
    (uname : String) (pw : JVal) (hu : uname ≠ "") (hpw : truthy pw = true)
    (hlock : (rateGet rate (JVal.jstr uname)).bloqueado_hasta = some u) (hnow : ahora < u) :
    procesar_login db rate ahora
        (JVal.jobj [("username", JVal.jstr uname), ("password", pw)]) =
      (some (Respuesta.err ("Usuario bloqueado. Intenta en " ++
        toString ((u - ahora) / 60 + 1) ++ " minuto(s)")),
       rateSet rate (JVal.jstr uname) (rateGet rate (JVal.jstr uname))) := by
  have hget1 : jget (JVal.jobj [("username", JVal.jstr uname), ("password", pw)]) "username" =
      some (some (JVal.jstr uname)) := rfl
  have hget2 : jget (JVal.jobj [("username", JVal.jstr uname), ("password", pw)]) "password" =
      some (some pw) := rfl
  have huB : (uname == "") = false := by simpa using hu
  have h1 : truthyOpt (some (JVal.jstr uname)) = true := by simp [truthyOpt, truthy, huB]
  have h2 : truthyOpt (some pw) = true := by simpa [truthyOpt] using hpw
  unfold procesar_login
  rw [hget1, hget2]
  simp only []
  rw [if_neg (by rw [h1, h2]; simp)]
  simp only [hashable, Bool.not_true, Bool.false_eq_true, if_false]
  rw [verificar_locked (rateGet rate (JVal.jstr uname)) ahora u hlock hnow]
  simp

/-- Claim C5 (confirmed).  While a username is locked until `u > now`, every
login attempt — whatever the password and whatever the user table, so no
stored hash is consulted and no verification runs — is denied with the
lockout error, and the outcome is identical for any password and any
database. -/
theorem C5_lockout_dominates (db : DBState) (rate : RateMap) (ahora u : Nat)
    (uname : String) (pw : JVal) (hu : uname ≠ "") (hpw : truthy pw = true)
    (hlock : (rateGet rate (JVal.jstr uname)).bloqueado_hasta = some u)
    (hnow : ahora < u) :
    (procesar_login db rate ahora
        (JVal.jobj [("username", JVal.jstr uname), ("password", pw)])).1 =
      some (Respuesta.err ("Usuario bloqueado. Intenta en " ++
        toString ((u - ahora) / 60 + 1) ++ " minuto(s)")) ∧
    (∀ db2 pw2, truthy pw2 = true →
      procesar_login db2 rate ahora
          (JVal.jobj [("username", JVal.jstr uname), ("password", pw2)]) =
        procesar_login db rate ahora
          (JVal.jobj [("username", JVal.jstr uname), ("password", pw)])) := by
  constructor
  · rw [procesar_login_locked db rate ahora u uname pw hu hpw hlock hnow]
  · intro db2 pw2 hpw2
    rw [procesar_login_locked db rate ahora u uname pw hu hpw hlock hnow,
        procesar_login_locked db2 rate ahora u uname pw2 hu hpw2 hlock hnow]

theorem C5_lockout_dominates_witness :
    (procesar_login ⟨[(JVal.jstr "alice", hashear_password "secret")], [], []⟩
        [(JVal.jstr "alice", ⟨5, some 120, some 0⟩)] 60
        (JVal.jobj [("username", JVal.jstr "alice"),
                    ("password", JVal.jstr "secret")])).1 =
      some (Respuesta.err "Usuario bloqueado. Intenta en 2 minuto(s)") :=
  ((C5_lockout_dominates ⟨[(JVal.jstr "alice", hashear_password "secret")], [], []⟩
    [(JVal.jstr "alice", ⟨5, some 120, some 0⟩)] 60 120 "alice" (JVal.jstr "secret")
    (by decide) (by decide) (by decide) (by decide)).1).trans
    (congrArg (fun s => some (Respuesta.err s)) (by decide))

/-- Claim C8 counterexample: with 60 seconds remaining the code reports
"Intenta en 2 minuto(s)" although `ceil(60 s / 1 min) = 1`. -/
theorem C8_counterexample :
    (verificar_rate_limit_login ⟨5, some 60, some 0⟩ 0).2.2 =
      "Usuario bloqueado. Intenta en 2 minuto(s)" ∧
    (60 - 0 + 59) / 60 = 1 ∧ (2 : Nat) ≠ 1 := by
  refine ⟨?_, by decide, by decide⟩
  rw [verificar_locked ⟨5, some 60, some 0⟩ 0 60 rfl (by decide)]
  decide

/-- Claim C8 (corrected, amended form).  The lockout denial reports
`(u − now) / 60 + 1` minutes — `floor` plus one, which equals the claimed
ceiling only when `u − now` is not an exact multiple of a minute. -/
theorem C8_lockout_minutes (estado : RateEntry) (ahora u : Nat)
    (hb : estado.bloqueado_hasta = some u) (hlt : ahora < u) :
    (verificar_rate_limit_login estado ahora).2.2 =
      "Usuario bloqueado. Intenta en " ++ toString ((u - ahora) / 60 + 1) ++
        " minuto(s)" ∧
    (¬ (60 ∣ (u - ahora)) → (u - ahora) / 60 + 1 = (u - ahora + 59) / 60) := by
  constructor
  · rw [verificar_locked estado ahora u hb hlt]
  · intro hnd
    rcases Nat.lt_or_ge ((u - ahora) % 60) 60 with h | h
    · have h0 : (u - ahora) % 60 ≠ 0 := fun hz => hnd (Nat.dvd_of_mod_eq_zero hz)
      omega
    · omega

theorem C8_lockout_minutes_witness :
    (verificar_rate_limit_login ⟨3, some 90, none⟩ 0).2.2 =
      "Usuario bloqueado. Intenta en 2 minuto(s)" :=
  ((C8_lockout_minutes ⟨3, some 90, none⟩ 0 90 rfl (by decide)).1).trans (by decide)

/-- Claim C6 counterexample: two failed attempts at `t = 0` and `t = 240`;
at `t = 360` more than the 5-minute window has passed since the **first**
attempt, yet the counter is not reset (the code measures from the last
attempt, 120 s ago). -/
theorem C6_counterexample :
    (verificar_rate_limit_login
        (registrar_intento_login (registrar_intento_login ⟨0, none, none⟩ 0 false)
          240 false) 360).1.intentos = 2 ∧
    360 - 0 > 300 ∧ (2 : Nat) ≠ 0 := by
  refine ⟨?_, by decide, by decide⟩
  rfl

/-- Claim C6 (corrected, amended form).  The window that clears the failed-attempt counter
is measured from the **most recent** attempt (`ultimo_intento`), not from
the first attempt of the counting run: the check permits and resets the
counter exactly when `now − last > 300 s`. -/
theorem C6_window_from_last (e : RateEntry) (ahora u : Nat)
    (hb : e.bloqueado_hasta = none) (hu : e.ultimo_intento = some u) :
    (verificar_rate_limit_login e ahora).2.1 = true ∧
    (verificar_rate_limit_login e ahora).1.intentos =
      (if ahora - u > 300 then 0 else e.intentos) := by
  unfold verificar_rate_limit_login ventanaReset
  rw [hb, hu]
  constructor
  · rfl
  · simp only []
    split
    · rfl
    · rfl

theorem C6_window_from_last_witness :
    (verificar_rate_limit_login ⟨3, none, some 10⟩ 400).2.1 = true ∧
    (verificar_rate_limit_login ⟨3, none, some 10⟩ 400).1.intentos =
      (if 400 - 10 > 300 then 0 else 3) :=
  C6_window_from_last ⟨3, none, some 10⟩ 400 10 rfl rfl

/-- The suffix `_procesar_login` appends to a failed credential check,
computed from the rate-limiter state alone (no dependence on the password
or the user table). -/
def loginFailSuffix (rate : RateMap) (k : JVal) (ahora : Nat) : String :=
  let estado1 := (verificar_rate_limit_login (rateGet rate k) ahora).1
  let estado2 := registrar_intento_login (rateGet (rateSet rate k estado1) k) ahora false
  if 5 - estado2.intentos > 0 then ". Intentos restantes: " ++ toString (5 - estado2.intentos)
  else ". Usuario bloqueado por 15 minutos"

theorem login_fail_msg (db : DBState) (u p : JVal) (m : String)
    (h : Autenticacion.login db u p = some (false, m)) : m = "Credenciales incorrectas" := by
  unfold Autenticacion.login at h
  repeat' split at h
  all_goals simp_all

theorem procesar_login_failed (db : DBState) (rate : RateMap) (ahora : Nat)
    (uname : String) (pw : JVal) (hu : uname ≠ "") (hpw : truthy pw = true)
    (hcan : (verificar_rate_limit_login (rateGet rate (JVal.jstr uname)) ahora).2.1 = true)
    (hfail : Autenticacion.login db (JVal.jstr uname) pw =
      some (false, "Credenciales incorrectas")) :
    (procesar_login db rate ahora
        (JVal.jobj [("username", JVal.jstr uname), ("password", pw)])).1 =
      some (Respuesta.err ("Credenciales incorrectas" ++
        loginFailSuffix rate (JVal.jstr uname) ahora)) := by
  have hget1 : jget (JVal.jobj [("username", JVal.jstr uname), ("password", pw)]) "username" =
      some (some (JVal.jstr uname)) := rfl
  have hget2 : jget (JVal.jobj [("username", JVal.jstr uname), ("password", pw)]) "password" =
      some (some pw) := rfl
  have huB : (uname == "") = false := by simpa using hu
  have h1 : truthyOpt (some (JVal.jstr uname)) = true := by simp [truthyOpt, truthy, huB]
  have h2 : truthyOpt (some pw) = true := by simpa [truthyOpt] using hpw
  unfold procesar_login
  rw [hget1, hget2]
  simp only []
  rw [if_neg (by rw [h1, h2]; simp)]
  simp only [hashable, Bool.not_true, Bool.false_eq_true, if_false]
  rcases hver : verificar_rate_limit_login (rateGet rate (JVal.jstr uname)) ahora with
    ⟨estado1, puede, msgError⟩
  rw [hver] at hcan
  simp only [] at hcan
  rw [hcan]
  simp only [Bool.not_true, Bool.false_eq_true, if_false]
  rw [hfail]
  simp only []
  rw [if_neg (by simp)]
  unfold loginFailSuffix
  rw [hver]
  simp only []
  split
  · rfl
  · rfl

/-- Claim C7 (corrected, amended form).  The authentication module itself returns the
constant "Credenciales incorrectas" for unknown user and wrong password
alike, but the server appends rate-limiter information before sending, so
the client-visible message is the constant plus a suffix that depends only
on the limiter state — still identical for the two failure causes. -/
theorem C7_constant_mismatch_message :
    (∀ db u p m, Autenticacion.login db u p = some (false, m) →
      m = "Credenciales incorrectas") ∧
    (∀ db rate ahora uname pw, uname ≠ "" → truthy pw = true →
      (verificar_rate_limit_login (rateGet rate (JVal.jstr uname)) ahora).2.1 = true →
      Autenticacion.login db (JVal.jstr uname) pw =
        some (false, "Credenciales incorrectas") →
      (procesar_login db rate ahora
          (JVal.jobj [("username", JVal.jstr uname), ("password", pw)])).1 =
        some (Respuesta.err ("Credenciales incorrectas" ++
          loginFailSuffix rate (JVal.jstr uname) ahora))) :=
  ⟨login_fail_msg, fun db rate ahora uname pw hu hpw hcan hfail =>
    procesar_login_failed db rate ahora uname pw hu hpw hcan hfail⟩

theorem C7_constant_mismatch_message_witness :
    (procesar_login ⟨[], [], []⟩ [] 0
        (JVal.jobj [("username", JVal.jstr "bob"), ("password", JVal.jstr "x")])).1 =
      some (Respuesta.err "Credenciales incorrectas. Intentos restantes: 4") :=
  (C7_constant_mismatch_message.2 ⟨[], [], []⟩ [] 0 "bob" (JVal.jstr "x")
    (by decide) (by decide) (by decide) rfl).trans
    (congrArg (fun s => some (Respuesta.err s)) (by decide))

/-- Claim C7 counterexample: for an unknown user the message written to the
client is not the bare constant — the server has appended the
remaining-attempts counter. -/
theorem C7_counterexample :
    (procesar_login ⟨[], [], []⟩ [] 0
        (JVal.jobj [("username", JVal.jstr "bob"), ("password", JVal.jstr "x")])).1 =
      some (Respuesta.err "Credenciales incorrectas. Intentos restantes: 4") ∧
    "Credenciales incorrectas. Intentos restantes: 4" ≠ "Credenciales incorrectas" := by
  refine ⟨?_, by decide⟩
  rfl

/-- Claim C1 (corrected, amended form).  The dispatcher checks only Python truthiness of
the four fields (a missing field, empty string or zero amount is rejected
with "Faltan datos de la transaccion"); `cantidad > 0` is never validated:
any truthy, bindable `cantidad` — negative amounts included — appends
exactly one audit record with `mac_verificado = true` and returns ok. -/
theorem C1_transaccion_no_amount_check (db : DBState) (datos u o d c : JVal)
    (hju : jget datos "username" = some (some u))
    (hjo : jget datos "cuenta_origen" = some (some o))
    (hjd : jget datos "cuenta_destino" = some (some d))
    (hjc : jget datos "cantidad" = some (some c)) :
    (truthy u = true → truthy o = true → truthy d = true → truthy c = true →
      (bindable u && bindable o && bindable d && bindable c) = true →
      procesar_transaccion db datos =
        (some (Respuesta.ok ("Transferencia completada (ID: " ++
          toString (db.transacciones.length + 1) ++ ")") []),
         { db with transacciones := db.transacciones ++
           [⟨db.transacciones.length + 1, u, o, d, c, true⟩] })) ∧
    (truthy c = false →
      procesar_transaccion db datos =
        (some (Respuesta.err "Faltan datos de la transaccion"), db)) := by
  constructor
  · intro htu hto htd htc hbind
    unfold procesar_transaccion
    rw [hju, hjo, hjd, hjc]
    simp only []
    rw [if_neg (by simp [truthyOpt, htu, hto, htd, htc])]
    unfold procesar_transferencia registrar_transaccion
    rw [if_pos hbind]
  · intro hfc
    unfold procesar_transaccion
    rw [hju, hjo, hjd, hjc]
    simp only []
    rw [if_pos (by simp [truthyOpt, hfc])]

theorem C1_transaccion_no_amount_check_witness :
    procesar_transaccion ⟨[], [], []⟩
        (JVal.jobj [("username", JVal.jstr "alice"), ("cuenta_origen", JVal.jstr "ES1"),
          ("cuenta_destino", JVal.jstr "ES2"), ("cantidad", JVal.jnum (-100) 0)]) =
      (some (Respuesta.ok "Transferencia completada (ID: 1)" []),
       ⟨[], [], [⟨1, JVal.jstr "alice", JVal.jstr "ES1", JVal.jstr "ES2",
         JVal.jnum (-100) 0, true⟩]⟩) :=
  ((C1_transaccion_no_amount_check ⟨[], [], []⟩
      (JVal.jobj [("username", JVal.jstr "alice"), ("cuenta_origen", JVal.jstr "ES1"),
        ("cuenta_destino", JVal.jstr "ES2"), ("cantidad", JVal.jnum (-100) 0)])
      (JVal.jstr "alice") (JVal.jstr "ES1") (JVal.jstr "ES2") (JVal.jnum (-100) 0)
      rfl rfl rfl rfl).1
    (by decide) (by decide) (by decide) (by decide) (by decide)).trans rfl

/-- Claim C1 counterexample: a `transaccion` whose `cantidad` is `-100` (not
greater than 0) is **accepted**: the response is ok and the audit table
grows by one record. -/
theorem C1_counterexample :
    (procesar_transaccion ⟨[], [], []⟩
        (JVal.jobj [("username", JVal.jstr "alice"), ("cuenta_origen", JVal.jstr "ES1"),
          ("cuenta_destino", JVal.jstr "ES2"), ("cantidad", JVal.jnum (-100) 0)])).1 =
      some (Respuesta.ok "Transferencia completada (ID: 1)" []) ∧
    ((procesar_transaccion ⟨[], [], []⟩
        (JVal.jobj [("username", JVal.jstr "alice"), ("cuenta_origen", JVal.jstr "ES1"),
          ("cuenta_destino", JVal.jstr "ES2"), ("cantidad", JVal.jnum (-100) 0)])).2
      ).transacciones.length = 1 ∧
    ¬ ((0 : Int) < -100) := by
  refine ⟨rfl, rfl, by decide⟩

/-- Claim C2 (corrected, amended form).  `desempaquetar` fails on invalid UTF-8, invalid
outer JSON or a missing field, but performs **no width check**: decoded
`mac`/`nonce` fields of any length — not just 32 bytes — are returned
successfully. -/
theorem C2_desempaquetar_no_width_check :
    (∀ m mac n, bytesOk m → bytesOk mac → bytesOk n →
      desempaquetar (empaquetarRaw m mac n) = some (m, mac, n)) ∧
    (∀ bs, utf8Decode bs = none → desempaquetar bs = none) ∧
    (∀ bs cs, utf8Decode bs = some cs → jsonLoads cs = none →
      desempaquetar bs = none) ∧
    (∀ bs cs fields, utf8Decode bs = some cs →
      jsonLoads cs = some (JVal.jobj fields) → lookupLast fields "mensaje" = none →
      desempaquetar bs = none) := by
  refine ⟨fun m mac n hm hmac hn => desempaquetar_empaquetarRaw m mac n hm hmac hn,
    fun bs h => ?_, fun bs cs h1 h2 => ?_, fun bs cs fields h1 h2 h3 => ?_⟩
  · unfold desempaquetar
    rw [h]
  · unfold desempaquetar
    rw [h1]
    simp only []
    rw [h2]
  · unfold desempaquetar
    rw [h1]
    simp only []
    rw [h2]
    simp only []
    rw [h3]

theorem C2_desempaquetar_no_width_check_witness :
    desempaquetar (empaquetarRaw [72] [1] [2, 3]) = some ([72], [1], [2, 3]) :=
  C2_desempaquetar_no_width_check.1 [72] [1] [2, 3] (by decide) (by decide) (by decide)

/-- Claim C2 counterexample: an envelope whose mac decodes to 1 byte and
whose nonce decodes to 2 bytes is returned successfully, not rejected as
malformed. -/
theorem C2_counterexample :
    desempaquetar (empaquetarRaw [72] [1] [2, 3]) = some ([72], [1], [2, 3]) ∧
    ([1] : List Nat).length ≠ 32 ∧ ([2, 3] : List Nat).length ≠ 32 := by
  refine ⟨rfl, by decide, by decide⟩

theorem crear_usuario_nonces (db : DBState) (u : JVal) (h : String) :
    ∀ b db2, crear_usuario db u h = some (b, db2) → db2.nonces = db.nonces := by
  intro b db2 hc
  unfold crear_usuario at hc
  split at hc
  · split at hc
    · cases hc; rfl
    · cases hc; rfl
  · exact Option.noConfusion hc

theorem registrar_nonces (db : DBState) (u : JVal) (p : String) :
    ∀ b m db2, Autenticacion.registrar db u p = some (b, m, db2) → db2.nonces = db.nonces := by
  intro b m db2 hr
  unfold Autenticacion.registrar at hr
  split at hr
  · exact Option.noConfusion hr
  · cases hr; rfl
  · split at hr
    · exact Option.noConfusion hr
    · rename_i db1 heq
      cases hr
      exact crear_usuario_nonces db u _ _ _ heq
    · rename_i db1 heq
      cases hr
      exact crear_usuario_nonces db u _ _ _ heq

theorem procesar_registro_nonces (db : DBState) (datos : JVal) :
    ((procesar_registro db datos).2).nonces = db.nonces := by
  unfold procesar_registro
  repeat' split
  all_goals try rfl
  all_goals (rename_i heq; exact registrar_nonces _ _ _ _ _ _ heq)

theorem registrar_transaccion_nonces (db : DBState) (u o d c : JVal) (mv : Bool) :
    ∀ i db2, registrar_transaccion db u o d c mv = some (i, db2) → db2.nonces = db.nonces := by
  intro i db2 hr
  unfold registrar_transaccion at hr
  split at hr
  · cases hr; rfl
  · exact Option.noConfusion hr

theorem procesar_transferencia_nonces (db : DBState) (u o d c : JVal) :
    ((procesar_transferencia db u o d c).2.2).nonces = db.nonces := by
  unfold procesar_transferencia
  split
  · rename_i i db1 heq
    exact registrar_transaccion_nonces db u o d c true i db1 heq
  · rfl

theorem procesar_transaccion_nonces (db : DBState) (datos : JVal) :
    ((procesar_transaccion db datos).2).nonces = db.nonces := by
  unfold procesar_transaccion
  repeat' split
  all_goals first
    | rfl
    | (rename_i heq
       have hp := congrArg (fun t => t.2.2.nonces) heq.symm
       exact hp.trans (procesar_transferencia_nonces _ _ _ _ _))

theorem manejar_cliente_replay_reject (clave : List Nat) (st2 : ServerState)
    (ahora2 : Nat) (datos mensaje_bytes mac nonce : List Nat)
    (hun : desempaquetar datos = some (mensaje_bytes, mac, nonce))
    (hmacv : verificar_mac clave mensaje_bytes nonce mac = true)
    (hin : st2.db.nonces.any (fun r => r.valor == nonce) = true) :
    manejar_cliente clave st2 ahora2 datos =
      (some (Respuesta.err "NONCE ya usado - Replay attack detectado"), st2) := by
  have hne : datos.isEmpty = false := by
    cases datos with
    | nil => rw [show desempaquetar [] = none from rfl] at hun; exact Option.noConfusion hun
    | cons x xs => rfl
  unfold manejar_cliente
  rw [if_neg (by simp [hne]), hun]
  simp only []
  unfold verificar_mensaje_completo
  rw [hmacv]
  simp only [Bool.not_true, Bool.false_eq_true, if_false]
  unfold validar_nonce
  rw [if_pos hin]
  simp only [Bool.not_false, if_true]
  rfl

/-- Claim C10 (confirmed).  Any envelope that passes MAC verification has its
nonce inserted into the nonce table before the payload is parsed or
dispatched — whatever the dispatch outcome, the nonce is consumed — and
retransmitting the identical envelope bytes is rejected as a replay with
the state unchanged. -/
theorem C10_nonce_consumed_before_dispatch (clave : List Nat) (st : ServerState)
    (ahora ahora2 : Nat) (datos mensaje_bytes mac nonce : List Nat)
    (hun : desempaquetar datos = some (mensaje_bytes, mac, nonce))
    (hmacv : verificar_mac clave mensaje_bytes nonce mac = true)
    (hfresh : st.db.nonces.any (fun r => r.valor == nonce) = false) :
    ((manejar_cliente clave st ahora datos).2).db.nonces.any
        (fun r => r.valor == nonce) = true ∧
    manejar_cliente clave ((manejar_cliente clave st ahora datos).2) ahora2 datos =
      (some (Respuesta.err "NONCE ya usado - Replay attack detectado"),
       (manejar_cliente clave st ahora datos).2) := by
  have hne : datos.isEmpty = false := by
    cases datos with
    | nil => rw [show desempaquetar [] = none from rfl] at hun; exact Option.noConfusion hun
    | cons x xs => rfl
  have hver : verificar_mensaje_completo st.db clave mensaje_bytes nonce mac ahora =
      (Except.ok true, { st.db with nonces := st.db.nonces ++ [⟨nonce, ahora + 5 * 60⟩] }) := by
    unfold verificar_mensaje_completo validar_nonce
    rw [hmacv]
    simp [hfresh]
  have key : ((manejar_cliente clave st ahora datos).2).db.nonces.any
      (fun r => r.valor == nonce) = true := by
    unfold manejar_cliente
    rw [if_neg (by simp [hne]), hun]
    simp only []
    rw [hver]
    simp only []
    cases hdj : desde_json mensaje_bytes with
    | none => simp [List.any_append]
    | some mensaje =>
      simp only []
      split
      · rw [procesar_registro_nonces]
        simp [List.any_append]
      split
      · simp [List.any_append]
      split
      · rw [procesar_transaccion_nonces]
        simp [List.any_append]
      · simp [List.any_append]
  exact ⟨key, manejar_cliente_replay_reject clave _ ahora2 datos mensaje_bytes mac nonce
    hun hmacv key⟩

/-- Concrete payload bytes and MAC for the replay witness. -/
def c10mj : List Nat :=
  utf8Encode (jsonDumps (JVal.jobj [("tipo", JVal.jstr "login"), ("datos", JVal.jobj [])]))

def c10mac : List Nat := calcular_mac [7] c10mj [1, 2]

theorem C10_nonce_consumed_before_dispatch_witness :
    ((manejar_cliente [7] ⟨⟨[], [], []⟩, []⟩ 0 (empaquetarRaw c10mj c10mac [1, 2])).2).db.nonces.any
        (fun r => r.valor == [1, 2]) = true ∧
    manejar_cliente [7]
        ((manejar_cliente [7] ⟨⟨[], [], []⟩, []⟩ 0 (empaquetarRaw c10mj c10mac [1, 2])).2) 1
        (empaquetarRaw c10mj c10mac [1, 2]) =
      (some (Respuesta.err "NONCE ya usado - Replay attack detectado"),
       (manejar_cliente [7] ⟨⟨[], [], []⟩, []⟩ 0 (empaquetarRaw c10mj c10mac [1, 2])).2) :=
  C10_nonce_consumed_before_dispatch [7] ⟨⟨[], [], []⟩, []⟩ 0 1
    (empaquetarRaw c10mj c10mac [1, 2]) c10mj c10mac [1, 2]
    (desempaquetar_empaquetarRaw c10mj c10mac [1, 2] (utf8Encode_bytesOk _)
      (calcular_mac_bytesOk _ _ _) (by decide))
    (by simp [c10mac, verificar_mac, compare_digest]) rfl
